import Mathlib

/-!
Verification development for the multi-provider LLM orchestration core of the
Recurre_Multas repository (TypeScript).  The TypeScript functions under
`src/lib/llm.ts`, `src/app/api/analyze/route.ts` and the related revisions are
shallowly embedded below as executable Lean definitions:

* JavaScript strings are modelled as Lean `String` (operated on through their
  underlying `List Char`); all string operations the source uses
  (`split(/\s+/)`, `split(/\n{2,}/)`, `trim`, `toLowerCase`, `search`,
  `indexOf`, stable `Array.prototype.sort`) are re-implemented here by
  structural recursion so that every definition evaluates inside the kernel.
  `toLowerCase` is modelled on ASCII plus the Spanish accented letters that
  occur in the source's data; JS record objects (`Record<string, T>`) are
  modelled as insertion-ordered association lists, which matches JS property
  enumeration order for the non-integer keys this code stores.
* `fetch`/network outcomes and the platform `JSON.parse` / `new URL`
  builtins are external capabilities; they enter the model as explicit
  parameters (an outcome value per call, or an oracle function).
* Thrown exceptions are modelled with `Except`/sum-shaped result types.
-/

set_option maxRecDepth 40000

namespace RecurreMultas

/-! ## Characters and low-level string operations -/

/-- Model of JS `String.prototype.toLowerCase` restricted to ASCII letters and
the Spanish accented letters used by the source documents. -/
def jsLower (c : Char) : Char :=
  if 'A' ≤ c ∧ c ≤ 'Z' then Char.ofNat (c.toNat + 32)
  else if c = 'Á' then 'á'
  else if c = 'É' then 'é'
  else if c = 'Í' then 'í'
  else if c = 'Ó' then 'ó'
  else if c = 'Ú' then 'ú'
  else if c = 'Ñ' then 'ñ'
  else if c = 'Ü' then 'ü'
  else c

/-- Whitespace class of the JS regexes (`\s`) and of `String.prototype.trim`,
restricted to the ASCII whitespace characters. -/
def jsWs (c : Char) : Bool :=
  c = ' ' ∨ c = '\t' ∨ c = '\n' ∨ c = '\r' ∨ c = Char.ofNat 11 ∨ c = Char.ofNat 12

/-- Model of JS `trim` on the character list: drop whitespace on both ends. -/
def trimL (l : List Char) : List Char :=
  ((l.dropWhile jsWs).reverse.dropWhile jsWs).reverse

/-- JS `s.split(/\s+/)`: split on maximal whitespace runs.  A leading run
contributes a leading empty field and a trailing run a trailing empty field,
exactly as in JS. -/
def splitWsAux : List Char → List Char → Bool → List (List Char)
  | [], cur, skipping => if skipping then [[]] else [cur.reverse]
  | c :: cs, cur, skipping =>
    if skipping then
      if jsWs c then splitWsAux cs [] true
      else splitWsAux cs [c] false
    else
      if jsWs c then cur.reverse :: splitWsAux cs [] true
      else splitWsAux cs (c :: cur) false

def splitWs (l : List Char) : List (List Char) := splitWsAux l [] false

/-- JS `s.split(/\n{2,}/)`: split on maximal runs of at least two newlines
(a single newline is ordinary content). -/
def splitBlankAux : List Char → List Char → Bool → List (List Char)
  | [], cur, skipping => if skipping then [[]] else [cur.reverse]
  | c :: cs, _cur, true =>
    if c = '\n' then splitBlankAux cs [] true else splitBlankAux cs [c] false
  | '\n' :: '\n' :: cs, cur, false => cur.reverse :: splitBlankAux cs [] true
  | c :: cs, cur, false => splitBlankAux cs (c :: cur) false

def splitBlank (l : List Char) : List (List Char) := splitBlankAux l [] false

/-- Does `pat` occur at the head of `l` once `l` is lower-cased?  Used for the
case-insensitive regex searches of the source. -/
def startsLower (l : List Char) (pat : List Char) : Bool :=
  (l.take pat.length).map jsLower = pat

/-- `String.prototype.search(/SUPLICA|SOLICITA/i)` of `mergeResponses`: index
of the first position where either petition word starts (case-insensitively),
`none` when the pattern does not occur (JS returns `-1`). -/
def findSupAux : List Char → Nat → Option Nat
  | [], _ => none
  | c :: cs, i =>
    if startsLower (c :: cs) "suplica".data ∨ startsLower (c :: cs) "solicita".data
    then some i
    else findSupAux cs (i + 1)

def findSup (l : List Char) : Option Nat := findSupAux l 0

/-- Case-insensitive substring test (`/pat/i.test(s)` for a literal `pat`). -/
def containsLower : List Char → List Char → Bool
  | [], pat => pat = []
  | c :: cs, pat => startsLower (c :: cs) pat ∨ containsLower cs pat

/-! ## Stable descending sort

`Array.prototype.sort` with a `(a, b) => keyOf b - keyOf a` comparator is a
stable sort into descending key order.  We model it by left-to-right
insertion: each element is inserted after every already-placed element of
greater-or-equal key. -/

def insDesc (key : α → Nat) (x : α) : List α → List α
  | [] => [x]
  | y :: ys => if key x ≤ key y then y :: insDesc key x ys else x :: y :: ys

def sortDesc (key : α → Nat) (l : List α) : List α :=
  l.foldl (fun acc x => insDesc key x acc) []

theorem insDesc_perm (key : α → Nat) (x : α) (l : List α) :
    (insDesc key x l).Perm (x :: l) := by
  induction l with
  | nil => simp [insDesc]
  | cons y ys ih =>
    simp only [insDesc]
    by_cases h : key x ≤ key y
    · simp only [h, if_pos]
      exact ((ih.cons y).trans (List.Perm.swap x y ys))
    · simp [h]

theorem sortDesc_perm (key : α → Nat) (l : List α) : (sortDesc key l).Perm l := by
  suffices h : ∀ acc : List α, (l.foldl (fun acc x => insDesc key x acc) acc).Perm (acc ++ l) by
    simpa using h []
  induction l with
  | nil => simp
  | cons x xs ih =>
    intro acc
    simp only [List.foldl_cons]
    refine (ih (insDesc key x acc)).trans ?_
    have h1 : (insDesc key x acc ++ xs).Perm ((x :: acc) ++ xs) :=
      (insDesc_perm key x acc).append_right xs
    refine h1.trans ?_
    simp only [List.cons_append]
    exact (List.perm_middle).symm

theorem insDesc_pairwise (key : α → Nat) (x : α) (l : List α)
    (h : l.Pairwise (fun a b => key b ≤ key a)) :
    (insDesc key x l).Pairwise (fun a b => key b ≤ key a) := by
  induction l with
  | nil => simp [insDesc]
  | cons y ys ih =>
    simp only [insDesc]
    rcases List.pairwise_cons.mp h with ⟨hy, hys⟩
    by_cases hxy : key x ≤ key y
    · simp only [hxy, if_pos]
      refine List.pairwise_cons.mpr ⟨?_, ih hys⟩
      intro b hb
      have := (insDesc_perm key x ys).mem_iff.mp hb
      rcases List.mem_cons.mp this with hbx | hbys
      · subst hbx; exact hxy
      · exact hy b hbys
    · simp only [hxy, if_neg, Bool.false_eq_true, not_false_iff]
      push_neg at hxy
      refine List.pairwise_cons.mpr ⟨?_, h⟩
      intro b hb
      rcases List.mem_cons.mp hb with hby | hbys
      · subst hby; exact le_of_lt hxy
      · exact le_trans (hy b hbys) (le_of_lt hxy)

theorem sortDesc_pairwise (key : α → Nat) (l : List α) :
    (sortDesc key l).Pairwise (fun a b => key b ≤ key a) := by
  suffices h : ∀ acc : List α, acc.Pairwise (fun a b => key b ≤ key a) →
      (l.foldl (fun acc x => insDesc key x acc) acc).Pairwise (fun a b => key b ≤ key a) by
    exact h [] (by simp)
  induction l with
  | nil => intro acc hacc; simpa using hacc
  | cons x xs ih =>
    intro acc hacc
    simp only [List.foldl_cons]
    exact ih _ (insDesc_pairwise key x acc hacc)

/-- The head of the stable descending sort attains the maximal key. -/
theorem sortDesc_head_max (key : α → Nat) (l : List α) (b : α) (rest : List α)
    (h : sortDesc key l = b :: rest) : ∀ x ∈ l, key x ≤ key b := by
  intro x hx
  have hperm := sortDesc_perm key l
  have hx2 : x ∈ sortDesc key l := hperm.mem_iff.mpr hx
  rw [h] at hx2
  rcases List.mem_cons.mp hx2 with h1 | h2
  · exact le_of_eq (by rw [h1])
  · have hp := sortDesc_pairwise key l
    rw [h] at hp
    exact (List.pairwise_cons.mp hp).1 x h2

/-- The head of `sortDesc` is an element of the input list. -/
theorem sortDesc_head_mem (key : α → Nat) (l : List α) (b : α) (rest : List α)
    (h : sortDesc key l = b :: rest) : b ∈ l := by
  have hperm := sortDesc_perm key l
  have : b ∈ sortDesc key l := by rw [h]; exact List.mem_cons_self b rest
  exact hperm.mem_iff.mp this

/-- Stability: inserting into a descending-sorted list preserves, for each key
value, the subsequence of elements with that key, appending the new element at
its end when the key matches. -/
theorem insDesc_filter_key (key : α → Nat) (x : α) (l : List α) (c : Nat)
    (hl : l.Pairwise (fun a b => key b ≤ key a)) :
    (insDesc key x l).filter (fun y => key y = c) =
      if key x = c then l.filter (fun y => key y = c) ++ [x]
      else l.filter (fun y => key y = c) := by
  induction l with
  | nil => by_cases h : key x = c <;> simp [insDesc, List.filter, h]
  | cons y ys ih =>
    rcases List.pairwise_cons.mp hl with ⟨hy, hys⟩
    simp only [insDesc]
    by_cases hxy : key x ≤ key y
    · simp only [hxy, if_pos, List.filter_cons]
      rw [ih hys]
      by_cases hxc : key x = c <;> by_cases hyc : key y = c <;>
        simp [hxc, hyc]
    · push_neg at hxy
      simp only [not_le.mpr hxy, if_neg, Bool.false_eq_true, not_false_iff]
      by_cases hxc : key x = c
      · -- every element of y :: ys has key < key x = c, so the filter is empty
        have hall : ∀ z ∈ y :: ys, key z ≠ c := by
          intro z hz
          rcases List.mem_cons.mp hz with hzy | hzys
          · have h1 : key z < key x := by rw [hzy]; exact hxy
            omega
          · have h1 : key z ≤ key y := hy z hzys
            omega
        have hfilt : (y :: ys).filter (fun z => key z = c) = [] := by
          apply List.filter_eq_nil_iff.mpr
          intro z hz
          simp [hall z hz]
        simp [List.filter_cons, hfilt, hxc, hall y (List.mem_cons_self y ys)]
      · simp [List.filter_cons, hxc]

/-! ## Insertion-ordered tallies

JS code of the form

```text
  const votes: Record<K, {count, payload}> = {};
  for (const x of xs) {
    if (!votes[k(x)]) votes[k(x)] = {count: 0, payload: x};
    votes[k(x)].count++;
    votes[k(x)].payload = upd(votes[k(x)].payload, x);
  }
```

is modelled as a fold over an insertion-ordered association list (JS object
property order for the string keys stored here). -/

structure TEntry (κ : Type) (α : Type) where
  key : κ
  count : Nat
  payload : α
deriving DecidableEq

def bump [DecidableEq κ] (keyOf : α → κ) (upd : α → α → α)
    (acc : List (TEntry κ α)) (x : α) : List (TEntry κ α) :=
  if acc.any (fun e => e.key = keyOf x) then
    acc.map (fun e =>
      if e.key = keyOf x then ⟨e.key, e.count + 1, upd e.payload x⟩ else e)
  else acc ++ [⟨keyOf x, 1, x⟩]

def tally [DecidableEq κ] (keyOf : α → κ) (upd : α → α → α) (xs : List α) :
    List (TEntry κ α) :=
  xs.foldl (bump keyOf upd) []

/-- Insertion-order deduplication of a list of keys. -/
def dedupIns [DecidableEq κ] (l : List κ) : List κ :=
  l.foldl (fun acc k => if k ∈ acc then acc else acc ++ [k]) []

theorem mem_dedupIns_go [DecidableEq κ] (k : κ) (xs acc : List κ) :
    k ∈ xs.foldl (fun acc k => if k ∈ acc then acc else acc ++ [k]) acc ↔
      k ∈ acc ∨ k ∈ xs := by
  induction xs generalizing acc with
  | nil => simp
  | cons x xs ih =>
    simp only [List.foldl_cons]
    rw [ih]
    by_cases hx : x ∈ acc
    · simp only [hx, if_pos]
      constructor
      · rintro (h | h)
        · exact Or.inl h
        · exact Or.inr (List.mem_cons.mpr (Or.inr h))
      · rintro (h | h)
        · exact Or.inl h
        · rcases List.mem_cons.mp h with h1 | h2
          · exact Or.inl (h1 ▸ hx)
          · exact Or.inr h2
    · simp only [hx, if_neg, Bool.false_eq_true, not_false_iff, List.mem_append,
        List.mem_singleton]
      constructor
      · rintro ((h | h) | h)
        · exact Or.inl h
        · exact Or.inr (List.mem_cons.mpr (Or.inl h))
        · exact Or.inr (List.mem_cons.mpr (Or.inr h))
      · rintro (h | h)
        · exact Or.inl (Or.inl h)
        · rcases List.mem_cons.mp h with h1 | h2
          · exact Or.inl (Or.inr h1)
          · exact Or.inr h2

theorem mem_dedupIns [DecidableEq κ] (k : κ) (l : List κ) :
    k ∈ dedupIns l ↔ k ∈ l := by
  unfold dedupIns; rw [mem_dedupIns_go]; simp

theorem dedupIns_append_singleton [DecidableEq κ] (l : List κ) (k : κ) :
    dedupIns (l ++ [k]) =
      if k ∈ dedupIns l then dedupIns l else dedupIns l ++ [k] := by
  unfold dedupIns
  rw [List.foldl_append]
  simp

theorem dedupIns_nodup [DecidableEq κ] (l : List κ) : (dedupIns l).Nodup := by
  suffices h : ∀ acc : List κ, acc.Nodup →
      (l.foldl (fun acc k => if k ∈ acc then acc else acc ++ [k]) acc).Nodup by
    exact h [] (by simp)
  induction l with
  | nil => intro acc hacc; simpa using hacc
  | cons x xs ih =>
    intro acc hacc
    simp only [List.foldl_cons]
    by_cases hx : x ∈ acc
    · simp only [hx, if_pos]; exact ih acc hacc
    · simp only [hx, if_neg, Bool.false_eq_true, not_false_iff]
      exact ih _ (by simp [List.nodup_append, hacc, hx])

/-- Left fold of a group of equal-keyed elements onto its first element. -/
def groupFold (upd : α → α → α) : List α → Option α
  | [] => none
  | x :: rest => some (rest.foldl upd x)

theorem groupFold_append_singleton (upd : α → α → α) (l : List α) (x : α) :
    groupFold upd (l ++ [x]) =
      some (match groupFold upd l with | none => x | some p => upd p x) := by
  cases l with
  | nil => simp [groupFold]
  | cons y rest => simp [groupFold, List.foldl_append]

/-- The combined invariant tying a tally to the list it was built from. -/
def TallySpec [DecidableEq κ] (keyOf : α → κ) (upd : α → α → α)
    (xs : List α) (acc : List (TEntry κ α)) : Prop :=
  acc.map (fun e => e.key) = dedupIns (xs.map keyOf) ∧
  (∀ e ∈ acc, e.count = xs.countP (fun x => keyOf x = e.key)) ∧
  (∀ e ∈ acc, some e.payload = groupFold upd (xs.filter (fun x => keyOf x = e.key)))

theorem bump_spec [DecidableEq κ] (keyOf : α → κ) (upd : α → α → α)
    (xs : List α) (acc : List (TEntry κ α)) (x : α)
    (h : TallySpec keyOf upd xs acc) :
    TallySpec keyOf upd (xs ++ [x]) (bump keyOf upd acc x) := by
  obtain ⟨hkeys, hcount, hpayload⟩ := h
  have hmemkeys : ∀ k, (k ∈ acc.map (fun e => e.key)) ↔ k ∈ xs.map keyOf := by
    intro k; rw [hkeys, mem_dedupIns]
  have hmapx : List.map keyOf (xs ++ [x]) = List.map keyOf xs ++ [keyOf x] := by
    simp
  by_cases hhit : acc.any (fun e => e.key = keyOf x)
  · -- the key is already present: counts bump, payload folds
    have hk : keyOf x ∈ acc.map (fun e => e.key) := by
      rcases List.any_eq_true.mp hhit with ⟨e, he, hek⟩
      exact List.mem_map.mpr ⟨e, he, of_decide_eq_true hek⟩
    have hkx : keyOf x ∈ xs.map keyOf := (hmemkeys _).mp hk
    refine ⟨?_, ?_, ?_⟩
    · -- keys unchanged
      unfold bump
      rw [if_pos hhit, List.map_map]
      have hcomp : ((fun e : TEntry κ α => e.key) ∘ fun e =>
          if e.key = keyOf x then ⟨e.key, e.count + 1, upd e.payload x⟩ else e) =
          (fun e : TEntry κ α => e.key) := by
        funext e; by_cases h : e.key = keyOf x <;> simp [h]
      rw [hcomp, hkeys, hmapx, dedupIns_append_singleton, if_pos]
      rw [mem_dedupIns]
      exact hkx
    · -- counts
      intro e' he'
      unfold bump at he'
      rw [if_pos hhit] at he'
      rcases List.mem_map.mp he' with ⟨e, he, hee⟩
      rw [List.countP_append]
      by_cases hek : e.key = keyOf x
      · rw [if_pos hek] at hee
        rw [← hee]
        simp only
        rw [hcount e he, hek]
        simp [List.countP_cons]
      · rw [if_neg hek] at hee
        rw [← hee]
        rw [hcount e he]
        have hxe : ¬ (keyOf x = e.key) := fun hcon => hek hcon.symm
        simp [List.countP_cons, hxe]
    · -- payloads
      intro e' he'
      unfold bump at he'
      rw [if_pos hhit] at he'
      rcases List.mem_map.mp he' with ⟨e, he, hee⟩
      rw [List.filter_append]
      by_cases hek : e.key = keyOf x
      · rw [if_pos hek] at hee
        rw [← hee]
        simp only
        have hfx : List.filter (fun y => decide (keyOf y = e.key)) [x] = [x] := by
          simp [hek]
        rw [hfx, groupFold_append_singleton]
        have hp := hpayload e he
        rcases hgf : groupFold upd (xs.filter (fun y => keyOf y = e.key)) with _ | p
        · rw [hgf] at hp; exact absurd hp (by simp)
        · rw [hgf] at hp
          simp only [Option.some.injEq] at hp
          simp [hp]
      · rw [if_neg hek] at hee
        rw [← hee]
        have hxe : ¬ (keyOf x = e.key) := fun hcon => hek hcon.symm
        have hfx : List.filter (fun y => decide (keyOf y = e.key)) [x] = [] := by
          simp [hxe]
        rw [hfx, List.append_nil]
        exact hpayload e he
  · -- fresh key: appended at the end with count 1 and payload x
    have hk : keyOf x ∉ acc.map (fun e => e.key) := by
      intro hcon
      rcases List.mem_map.mp hcon with ⟨e, he, hek⟩
      exact hhit (List.any_eq_true.mpr ⟨e, he, decide_eq_true hek⟩)
    have hkx : keyOf x ∉ xs.map keyOf := fun hcon => hk ((hmemkeys _).mpr hcon)
    have hne : ∀ e ∈ acc, e.key ≠ keyOf x := by
      intro e he hcon
      exact hk (List.mem_map.mpr ⟨e, he, hcon⟩)
    refine ⟨?_, ?_, ?_⟩
    · unfold bump
      rw [if_neg hhit, List.map_append, hkeys, hmapx,
        dedupIns_append_singleton, if_neg]
      · simp
      · rw [mem_dedupIns]; exact hkx
    · intro e' he'
      unfold bump at he'
      rw [if_neg hhit] at he'
      rw [List.countP_append]
      rcases List.mem_append.mp he' with he | he
      · rw [hcount e' he]
        have hxe : ¬ (keyOf x = e'.key) := fun hcon => hne e' he hcon.symm
        simp [List.countP_cons, hxe]
      · have he'' : e' = ⟨keyOf x, 1, x⟩ := by simpa using he
        subst he''
        simp only
        have h0 : xs.countP (fun y => keyOf y = keyOf x) = 0 := by
          rw [List.countP_eq_zero]
          intro y hy hcon
          exact hkx (List.mem_map.mpr ⟨y, hy, of_decide_eq_true hcon⟩)
        rw [h0]
        simp [List.countP_cons]
    · intro e' he'
      unfold bump at he'
      rw [if_neg hhit] at he'
      rw [List.filter_append]
      rcases List.mem_append.mp he' with he | he
      · have hxe : ¬ (keyOf x = e'.key) := fun hcon => hne e' he hcon.symm
        have hfx : List.filter (fun y => decide (keyOf y = e'.key)) [x] = [] := by
          simp [hxe]
        rw [hfx, List.append_nil]
        exact hpayload e' he
      · have he'' : e' = ⟨keyOf x, 1, x⟩ := by simpa using he
        subst he''
        simp only
        have h0 : xs.filter (fun y => decide (keyOf y = keyOf x)) = [] := by
          rw [List.filter_eq_nil_iff]
          intro y hy hcon
          exact hkx (List.mem_map.mpr ⟨y, hy, of_decide_eq_true hcon⟩)
        rw [h0]
        simp [groupFold]

theorem tally_spec [DecidableEq κ] (keyOf : α → κ) (upd : α → α → α)
    (xs : List α) : TallySpec keyOf upd xs (tally keyOf upd xs) := by
  suffices h : ∀ (ys : List α) (pre : List α) (acc : List (TEntry κ α)),
      TallySpec keyOf upd pre acc →
      TallySpec keyOf upd (pre ++ ys) (ys.foldl (bump keyOf upd) acc) by
    have := h xs [] [] (by refine ⟨by simp [dedupIns], by simp, by simp⟩)
    simpa [tally] using this
  intro ys
  induction ys with
  | nil => intro pre acc h; simpa using h
  | cons y ys ih =>
    intro pre acc h
    simp only [List.foldl_cons]
    have h2 := ih (pre ++ [y]) (bump keyOf upd acc y) (bump_spec keyOf upd pre acc y h)
    simpa using h2

theorem sortDesc_filter_key (key : α → Nat) (l : List α) (c : Nat) :
    (sortDesc key l).filter (fun y => key y = c) = l.filter (fun y => key y = c) := by
  suffices h : ∀ acc : List α, acc.Pairwise (fun a b => key b ≤ key a) →
      (l.foldl (fun acc x => insDesc key x acc) acc).filter (fun y => key y = c) =
        acc.filter (fun y => key y = c) ++ l.filter (fun y => key y = c) by
    simpa using h [] (by simp)
  induction l with
  | nil => intro acc _; simp
  | cons x xs ih =>
    intro acc hacc
    simp only [List.foldl_cons, List.filter_cons]
    rw [ih _ (insDesc_pairwise key x acc hacc), insDesc_filter_key key x acc c hacc]
    by_cases hxc : key x = c <;> simp [hxc]

end RecurreMultas

namespace RecurreMultas

/-! ## Drafts and the heuristic merge (`mergeResponses`, lib/llm.ts two-phase
revision) -/

structure DraftResponse where
  agentName : String
  content : String
deriving DecidableEq

/-- The noise filter `(r) => r.content && r.content.length > 100` (JS string
truthiness plus the 100-character threshold).  Lengths are code-point counts;
the JS `.length` is UTF-16 units, which agree on the texts involved here. -/
def qualifies (r : DraftResponse) : Bool :=
  r.content ≠ "" ∧ 100 < r.content.length

def mergeFailMsg : String :=
  "No se pudo generar el recurso. Verifica la configuración de los agentes."

/-- First ten lower-cased whitespace-split tokens of a paragraph
(`para.toLowerCase().split(/\s+/).slice(0, 10)`). -/
def firstTokens (p : List Char) : List (List Char) :=
  (splitWs (p.map jsLower)).take 10

/-- `hits` loop of `mergeResponses`: how many of the paragraph's tokens occur
among the base paragraph's tokens (`indexOf !== -1`, duplicates counted). -/
def overlapHits (paraWords baseWords : List (List Char)) : Nat :=
  paraWords.countP (fun w => baseWords.contains w)

/-- `isInBase` of `mergeResponses`: some base paragraph shares more than 6 of
the first 10 tokens. -/
def isInBase (baseParas : List (List Char)) (para : List Char) : Bool :=
  baseParas.any (fun bp => 6 < overlapHits (firstTokens para) (firstTokens bp))

/-- The `uniqueAdditions` accumulation loop of `mergeResponses`. -/
def uniqueAdditions (base : String) (others : List DraftResponse) : List String :=
  others.foldl (fun acc r =>
    let otherParas := (splitBlank r.content.data).filter (fun p => 100 < (trimL p).length)
    acc ++ (otherParas.filter (fun p => ¬ isInBase (splitBlank base.data) p)).map
      (fun p => String.mk (trimL p))) []

/-- `Array.prototype.join(sep)`. -/
def joinSep (sep : String) : List String → String
  | [] => ""
  | [s] => s
  | s :: rest => s ++ sep ++ joinSep sep rest

/-- `mergeResponses` (lib/llm.ts, two-phase revision): filter drafts above the
noise threshold; none → fixed failure message, one → verbatim, several → take
the longest as base and splice in non-duplicate long paragraphs of the others,
before the petition section when `search(/SUPLICA|SOLICITA/i)` returns a
positive index, after a `---` separator otherwise. -/
def mergeResponses (responses : List DraftResponse) : String :=
  match responses.filter qualifies with
  | [] => mergeFailMsg
  | [r] => r.content
  | r1 :: r2 :: rest =>
    match sortDesc (fun r => r.content.length) (r1 :: r2 :: rest) with
    | [] => mergeFailMsg    -- unreachable: sortDesc permutes a non-empty list
    | b :: others =>
      let base := b.content
      let adds := uniqueAdditions base others
      if adds = [] then base
      else
        let supIdx : Int := match findSup base.data with
          | some i => (i : Int)
          | none => -1
        if 0 < supIdx then
          String.mk (base.data.take supIdx.toNat) ++ "\n\n" ++
            joinSep "\n\n" adds ++ "\n\n" ++ String.mk (base.data.drop supIdx.toNat)
        else base ++ "\n\n---\n\n" ++ joinSep "\n\n" adds

/-! ## The master (fusion) agent (`callMasterAgent`, lib/llm.ts revision with
Mistral Large + OpenRouter DeepSeek) -/

/-- Outcome of one provider HTTP call: the adapter either returns a content
string or throws. -/
inductive CallOutcome where
  | ok (content : String)
  | thrown (msg : String)
deriving DecidableEq

structure LLMResponse where
  content : String
  error : Option String
deriving DecidableEq

/-- The environment of one `callMasterAgent` run: both server credentials and
the outcome each of the two fusion calls would have (network behaviour is an
external capability). -/
structure MasterEnv where
  mistralKey : String
  openrouterKey : String
  mistralLargeCall : CallOutcome
  openrouterCall : CallOutcome
deriving DecidableEq

/-- Second half of the `try` block: the OpenRouter fusion attempt followed by
the final failure result. -/
def masterOpenRouterStep (env : MasterEnv) : LLMResponse :=
  if env.openrouterKey ≠ "" then
    match env.openrouterCall with
    | .thrown m => { content := "", error := some m }
    | .ok c =>
      if 100 < c.length then { content := c, error := none }
      else { content := "", error := some "No se pudo generar el recurso definitivo" }
  else { content := "", error := some "No se pudo generar el recurso definitivo" }

/-- The `try/catch` of `callMasterAgent` for two or more valid drafts.  A
thrown call is caught by the single surrounding `catch`, which returns an
error response immediately — it does not continue with the next provider. -/
def masterTryChain (env : MasterEnv) : LLMResponse :=
  if env.mistralKey ≠ "" then
    match env.mistralLargeCall with
    | .thrown m => { content := "", error := some m }
    | .ok c =>
      if 100 < c.length then { content := c, error := none }
      else masterOpenRouterStep env
  else masterOpenRouterStep env

/-- `callMasterAgent` (lib/llm.ts): filter valid drafts; none → error, one →
verbatim, several → Mistral Large then OpenRouter fusion chain. -/
def callMasterAgent (env : MasterEnv) (drafts : List DraftResponse) : LLMResponse :=
  match drafts.filter qualifies with
  | [] => { content := "", error := some "No hay borradores válidos para fusionar" }
  | [d] => { content := d.content, error := none }
  | _ :: _ :: _ => masterTryChain env

end RecurreMultas

namespace RecurreMultas

/-! ## Claims C3 and C4: merge totality and single-draft identity -/

theorem qualifies_length {r : DraftResponse} (h : qualifies r = true) :
    100 < r.content.length := by
  simp only [qualifies, decide_eq_true_eq, Bool.decide_and] at h
  exact (of_decide_eq_true (Bool.and_elim_right h))

/-- Claim C3: for every list of drafts (empty included, and lists whose drafts
are all at or below the 100-character noise threshold), `mergeResponses`
returns a defined string; it returns the fixed failure message exactly when no
draft qualifies, and a string longer than 100 characters otherwise (so it
never returns an empty or null document).  Termination and absence of
exceptions hold by construction: the embedding is a total function. -/
theorem c3_merge_totality (responses : List DraftResponse) :
    (mergeResponses responses = mergeFailMsg ↔ responses.filter qualifies = []) ∧
    (responses.filter qualifies ≠ [] → 100 < (mergeResponses responses).length) := by
  have hfailshort : mergeFailMsg.length ≤ 100 := by decide
  rcases hv : responses.filter qualifies with _ | ⟨r, rs⟩
  · refine ⟨⟨fun _ => rfl, fun _ => ?_⟩, fun h => absurd rfl h⟩
    simp [mergeResponses, hv]
  · -- at least one qualifying draft: the result is longer than 100 characters
    have hlen : 100 < (mergeResponses responses).length := by
      rcases rs with _ | ⟨r2, rest⟩
      · -- exactly one: verbatim content of the single valid draft
        have hq : qualifies r = true := by
          have : r ∈ responses.filter qualifies := by rw [hv]; exact List.mem_cons_self r []
          exact (List.mem_filter.mp this).2
        have : mergeResponses responses = r.content := by
          simp [mergeResponses, hv]
        rw [this]
        exact qualifies_length hq
      · -- two or more: base is a qualifying draft, every branch extends it
        rcases hs : sortDesc (fun r => r.content.length) (r :: r2 :: rest) with _ | ⟨b, others⟩
        · exfalso
          have hp := (sortDesc_perm (fun r : DraftResponse => r.content.length)
            (r :: r2 :: rest)).length_eq
          rw [hs] at hp
          simp at hp
        · have hbmem : b ∈ responses.filter qualifies := by
            rw [hv]
            exact sortDesc_head_mem _ _ _ _ hs
          have hbq : 100 < b.content.length := qualifies_length (List.mem_filter.mp hbmem).2
          have hres : mergeResponses responses =
              (if uniqueAdditions b.content others = [] then b.content
               else
                 let supIdx : Int := match findSup b.content.data with
                   | some i => (i : Int)
                   | none => -1
                 if 0 < supIdx then
                   String.mk (b.content.data.take supIdx.toNat) ++ "\n\n" ++
                     joinSep "\n\n" (uniqueAdditions b.content others) ++ "\n\n" ++
                     String.mk (b.content.data.drop supIdx.toNat)
                 else b.content ++ "\n\n---\n\n" ++ joinSep "\n\n" (uniqueAdditions b.content others)) := by
            simp only [mergeResponses, hv, hs]
          rw [hres]
          by_cases hadds : uniqueAdditions b.content others = []
          · simpa [hadds] using hbq
          · simp only [hadds, if_neg, Bool.false_eq_true, not_false_iff]
            rcases hsup : findSup b.content.data with _ | i
            · -- no petition section: append after the separator
              simp only [hsup]
              rw [if_neg (by decide : ¬ ((0 : Int) < -1))]
              simp only [String.length_append]
              omega
            · simp only [hsup]
              by_cases hpos : (0 : Int) < (i : Int)
              · simp only [hpos, if_pos, String.length_append]
                have h1 : (String.mk (b.content.data.take ((i : Int)).toNat)).length =
                    (b.content.data.take ((i : Int)).toNat).length := rfl
                have h2 : (String.mk (b.content.data.drop ((i : Int)).toNat)).length =
                    (b.content.data.drop ((i : Int)).toNat).length := rfl
                have h3 : (b.content.data.take ((i : Int)).toNat).length +
                    (b.content.data.drop ((i : Int)).toNat).length = b.content.data.length := by
                  rw [List.length_take, List.length_drop]
                  omega
                have h4 : b.content.length = b.content.data.length := rfl
                omega
              · simp only [hpos, if_neg, Bool.false_eq_true, not_false_iff,
                  String.length_append]
                omega
    refine ⟨⟨fun heq => ?_, fun h => absurd h (by simp)⟩,
      fun _ => hlen⟩
    exfalso
    rw [heq] at hlen
    omega

/-- Claim C4: when exactly one draft passes the noise filter, both the
heuristic merge and the master agent's valid-draft path return that draft's
content verbatim. -/
theorem c4_single_draft_identity
    (responses drafts : List DraftResponse) (env : MasterEnv) (d e : DraftResponse)
    (h1 : responses.filter qualifies = [d]) (h2 : drafts.filter qualifies = [e]) :
    mergeResponses responses = d.content ∧
      callMasterAgent env drafts = { content := e.content, error := none } := by
  constructor
  · simp [mergeResponses, h1]
  · simp [callMasterAgent, h2]

/-! Concrete data for witnesses and counterexamples. -/

def strA : String := String.mk (List.replicate 120 'a')
def strB : String := String.mk (List.replicate 110 'b')
def strC : String := String.mk (List.replicate 150 'c')

def envIdle : MasterEnv :=
  { mistralKey := "", openrouterKey := "",
    mistralLargeCall := .ok "", openrouterCall := .ok "" }

theorem c3_merge_totality_witness :
    mergeResponses [] = mergeFailMsg ∧
      100 < (mergeResponses [⟨"Agente Mistral", strA⟩]).length :=
  ⟨(c3_merge_totality []).1.mpr rfl,
   (c3_merge_totality [⟨"Agente Mistral", strA⟩]).2 (by decide)⟩

theorem c4_single_draft_identity_witness :
    mergeResponses [⟨"Agente Mistral", strA⟩] = strA ∧
      callMasterAgent envIdle [⟨"Agente Llama", strB⟩] =
        { content := strB, error := none } :=
  c4_single_draft_identity [⟨"Agente Mistral", strA⟩] [⟨"Agente Llama", strB⟩]
    envIdle ⟨"Agente Mistral", strA⟩ ⟨"Agente Llama", strB⟩ (by decide) (by decide)

end RecurreMultas

namespace RecurreMultas

/-! ## Claim C2: the master-agent fallback chain -/

def cxDraftA : DraftResponse := ⟨"Agente Mistral", strA⟩
def cxDraftB : DraftResponse := ⟨"Agente Llama", strB⟩

/-- Environment in which the Mistral Large fusion call throws while the
OpenRouter credential is present and its call would return a long document. -/
def cxMasterEnv : MasterEnv :=
  { mistralKey := "sk-mistral", openrouterKey := "sk-or",
    mistralLargeCall := .thrown "Mistral [mistral-large-latest] 500: HTTP 500",
    openrouterCall := .ok strC }

/-- Claim C2 counterexample: with two valid drafts, a present Mistral
credential whose fusion call throws, and a present OpenRouter credential whose
call would succeed with content above the threshold, `callMasterAgent` returns
an error response with empty content — it neither falls back to the secondary
agent nor to any heuristic merge, so no merged document is produced even
though both drafts succeeded. -/
theorem c2_master_fallback_counterexample :
    2 ≤ ([cxDraftA, cxDraftB].filter qualifies).length ∧
    cxMasterEnv.openrouterKey ≠ "" ∧
    cxMasterEnv.openrouterCall = CallOutcome.ok strC ∧ 100 < strC.length ∧
    callMasterAgent cxMasterEnv [cxDraftA, cxDraftB] =
      { content := "", error := some "Mistral [mistral-large-latest] 500: HTTP 500" } :=
  ⟨by decide, by decide, rfl, by decide, by decide⟩

/-- Claim C2 (amended): with more than one valid draft, `callMasterAgent`
tries Mistral Large when the Mistral credential is non-empty and returns its
content when it exceeds the noise threshold; when the Mistral credential is
absent or its call returns (without throwing) content at or below the
threshold, it falls back to the OpenRouter agent; when neither attempt yields
content above the threshold it returns the fixed fusion-failure error with
empty content; a thrown call, however, is caught by the single surrounding
`catch` and aborts the whole chain with an error response (no fallback to the
secondary agent and no heuristic merge).  With exactly one valid draft that
draft is returned verbatim, and with none a no-valid-drafts error results. -/
theorem c2_master_fallback_amended (env : MasterEnv) (drafts : List DraftResponse) :
    (∀ r1 r2 rest, drafts.filter qualifies = r1 :: r2 :: rest →
      ((env.mistralKey ≠ "" → ∀ c, env.mistralLargeCall = CallOutcome.ok c →
          100 < c.length → callMasterAgent env drafts = { content := c, error := none }) ∧
       (env.mistralKey ≠ "" → ∀ m, env.mistralLargeCall = CallOutcome.thrown m →
          callMasterAgent env drafts = { content := "", error := some m }) ∧
       ((env.mistralKey = "" ∨ ∃ c, env.mistralLargeCall = CallOutcome.ok c ∧ c.length ≤ 100) →
          callMasterAgent env drafts = masterOpenRouterStep env))) ∧
    (env.openrouterKey ≠ "" → ∀ c, env.openrouterCall = CallOutcome.ok c → 100 < c.length →
        masterOpenRouterStep env = { content := c, error := none }) ∧
    (env.openrouterKey ≠ "" → ∀ m, env.openrouterCall = CallOutcome.thrown m →
        masterOpenRouterStep env = { content := "", error := some m }) ∧
    ((env.openrouterKey = "" ∨ ∃ c, env.openrouterCall = CallOutcome.ok c ∧ c.length ≤ 100) →
        masterOpenRouterStep env =
          { content := "", error := some "No se pudo generar el recurso definitivo" }) ∧
    (∀ d, drafts.filter qualifies = [d] →
        callMasterAgent env drafts = { content := d.content, error := none }) ∧
    (drafts.filter qualifies = [] →
        callMasterAgent env drafts =
          { content := "", error := some "No hay borradores válidos para fusionar" }) := by
  refine ⟨?_, ?_, ?_, ?_, ?_, ?_⟩
  · intro r1 r2 rest hfil
    refine ⟨?_, ?_, ?_⟩
    · intro hk c hc hlen
      simp [callMasterAgent, hfil, masterTryChain, hk, hc, hlen]
    · intro hk m hm
      simp [callMasterAgent, hfil, masterTryChain, hk, hm]
    · rintro (hk | ⟨c, hc, hlen⟩)
      · simp [callMasterAgent, hfil, masterTryChain, hk]
      · simp [callMasterAgent, hfil, masterTryChain, hc, Nat.not_lt.mpr hlen]
  · intro hk c hc hlen
    simp [masterOpenRouterStep, hk, hc, hlen]
  · intro hk m hm
    simp [masterOpenRouterStep, hk, hm]
  · rintro (hk | ⟨c, hc, hlen⟩)
    · simp [masterOpenRouterStep, hk]
    · by_cases hko : env.openrouterKey = ""
      · simp [masterOpenRouterStep, hko]
      · simp [masterOpenRouterStep, hko, hc, Nat.not_lt.mpr hlen]
  · intro d hfil
    simp [callMasterAgent, hfil]
  · intro hfil
    simp [callMasterAgent, hfil]

def envMistralAbsent : MasterEnv :=
  { mistralKey := "", openrouterKey := "sk-or",
    mistralLargeCall := .ok "", openrouterCall := .ok strC }

theorem c2_master_fallback_amended_witness :
    callMasterAgent cxMasterEnv [cxDraftA, cxDraftB] =
      { content := "", error := some "Mistral [mistral-large-latest] 500: HTTP 500" } ∧
    callMasterAgent envMistralAbsent [cxDraftA, cxDraftB] =
      { content := strC, error := none } := by
  constructor
  · exact (((c2_master_fallback_amended cxMasterEnv [cxDraftA, cxDraftB]).1
      cxDraftA cxDraftB [] (by decide)).2.1 (by decide) _ rfl)
  · have h := c2_master_fallback_amended envMistralAbsent [cxDraftA, cxDraftB]
    have h1 := (h.1 cxDraftA cxDraftB [] (by decide)).2.2 (Or.inl rfl)
    have h2 := h.2.1 (by decide) strC rfl (by decide)
    rw [h1, h2]

end RecurreMultas

namespace RecurreMultas

/-! ## Claim C5: the heuristic merge algorithm -/

/-- Spec-side similarity test, phrased as the specification words it: more
than 6 of the paragraph's first 10 lower-cased tokens occur among the first 10
lower-cased tokens of some base paragraph. -/
def specDuplicateB (base : String) (para : List Char) : Bool :=
  (splitBlank base.data).any (fun bp =>
    6 < (firstTokens para).countP (fun w => w ∈ firstTokens bp))

theorem isInBase_eq_specDuplicateB (base : String) (para : List Char) :
    isInBase (splitBlank base.data) para = specDuplicateB base para := by
  unfold isInBase specDuplicateB overlapHits
  congr 1
  funext bp
  have hpt : (fun w => (firstTokens bp).contains w) =
      (fun w : List Char => decide (w ∈ firstTokens bp)) := by
    funext w
    rw [Bool.eq_iff_iff]
    simp [List.contains, List.elem_iff]
  rw [hpt]

/-- A petition word starts at position `i` (case-insensitively). -/
def petitionAt (l : List Char) (i : Nat) : Prop :=
  startsLower (l.drop i) "suplica".data ∨ startsLower (l.drop i) "solicita".data

instance (l : List Char) (i : Nat) : Decidable (petitionAt l i) := by
  unfold petitionAt; infer_instance

theorem findSupAux_shift (l : List Char) (k : Nat) :
    findSupAux l (k + 1) = (findSupAux l k).map (· + 1) := by
  induction l generalizing k with
  | nil => simp [findSupAux]
  | cons c cs ih =>
    simp only [findSupAux]
    by_cases h : startsLower (c :: cs) "suplica".data ∨ startsLower (c :: cs) "solicita".data
    · simp [h]
    · simp only [h, if_neg, Bool.false_eq_true, not_false_iff]
      exact ih (k + 1)

/-- `findSup` returns the least position where a petition word starts, and
`none` exactly when no position carries one. -/
theorem findSup_least (l : List Char) :
    (∀ i, findSup l = some i → petitionAt l i ∧ ∀ j, j < i → ¬ petitionAt l j) ∧
    (findSup l = none → ∀ j, ¬ petitionAt l j) := by
  induction l with
  | nil =>
    constructor
    · intro i h; simp [findSup, findSupAux] at h
    · intro _ j
      simp only [petitionAt, List.drop_nil]
      decide
  | cons c cs ih =>
    have hstep : findSup (c :: cs) =
        (if startsLower (c :: cs) "suplica".data ∨ startsLower (c :: cs) "solicita".data
         then some 0 else (findSup cs).map (· + 1)) := by
      show findSupAux (c :: cs) 0 = _
      simp only [findSupAux]
      by_cases h : startsLower (c :: cs) "suplica".data ∨ startsLower (c :: cs) "solicita".data
      · simp [h]
      · simp only [h, if_neg, Bool.false_eq_true, not_false_iff]
        exact findSupAux_shift cs 0
    have hp0 : petitionAt (c :: cs) 0 ↔
        (startsLower (c :: cs) "suplica".data ∨ startsLower (c :: cs) "solicita".data) := by
      simp [petitionAt]
    have hpS : ∀ j : Nat, petitionAt (c :: cs) (j + 1) ↔ petitionAt cs j := by
      intro j; simp [petitionAt]
    by_cases h : startsLower (c :: cs) "suplica".data ∨ startsLower (c :: cs) "solicita".data
    · rw [hstep, if_pos h]
      constructor
      · intro i hi
        have hi0 : i = 0 := by simpa using hi.symm
        subst hi0
        exact ⟨hp0.mpr h, fun j hj => absurd hj (by omega)⟩
      · intro hcon; cases hcon
    · rw [hstep, if_neg h]
      constructor
      · intro i hi
        rcases hmap : findSup cs with _ | k
        · rw [hmap] at hi; simp at hi
        · rw [hmap] at hi
          have hik : i = k + 1 := by
            simp at hi
            omega
          subst hik
          obtain ⟨hk, hleast⟩ := ih.1 k hmap
          refine ⟨(hpS k).mpr hk, ?_⟩
          intro j hj
          cases j with
          | zero => rw [hp0]; exact h
          | succ j =>
            rw [hpS j]
            exact hleast j (by omega)
      · intro hi j
        rcases hmap : findSup cs with _ | k
        · cases j with
          | zero => rw [hp0]; exact h
          | succ j => rw [hpS j]; exact ih.2 hmap j
        · rw [hmap] at hi; simp at hi

/-- The first element attaining the maximal key (the specification's "the
longest draft is the base", with first-seen tie-breaking): the head of the
stable descending sort is exactly `find?` of "at least as long as every
draft". -/
theorem sortDesc_head_first_max (key : α → Nat) (l : List α) (b : α) (rest : List α)
    (h : sortDesc key l = b :: rest) :
    l.find? (fun r => l.all (fun s => key s ≤ key r)) = some b := by
  have hmax := sortDesc_head_max key l b rest h
  have hbmem := sortDesc_head_mem key l b rest h
  have hcongr : l.filter (fun r => l.all (fun s => key s ≤ key r)) =
      l.filter (fun y => key y = key b) := by
    apply List.filter_congr
    intro x hx
    by_cases hkey : key x = key b
    · have h1 : (l.all fun s => decide (key s ≤ key x)) = true := by
        rw [List.all_eq_true]
        intro s hs
        exact decide_eq_true (by rw [hkey]; exact hmax s hs)
      rw [h1, decide_eq_true hkey]
    · have h1 : (l.all fun s => decide (key s ≤ key x)) = false := by
        rw [Bool.eq_false_iff]
        intro hcon
        rw [List.all_eq_true] at hcon
        have hbx : key b ≤ key x := of_decide_eq_true (hcon b hbmem)
        exact hkey (le_antisymm (hmax x hx) hbx)
      rw [h1, decide_eq_false hkey]
  rw [← List.filter_head? _ l, hcongr, ← sortDesc_filter_key key l (key b), h]
  simp [List.filter_cons]

end RecurreMultas

namespace RecurreMultas

/-- Spec-side description of one other draft's contribution to the merged
document: its blank-line-separated paragraphs whose trimmed length exceeds the
noise threshold and which are not likely duplicates of a base paragraph,
trimmed, in order. -/
def specAdds (base : String) (r : DraftResponse) : List String :=
  ((splitBlank r.content.data).filter
    (fun p => decide (100 < (trimL p).length) && ! specDuplicateB base p)).map
    (fun p => String.mk (trimL p))

theorem uniqueAdditions_eq (base : String) (others : List DraftResponse) :
    uniqueAdditions base others = (others.map (specAdds base)).flatten := by
  suffices h : ∀ acc : List String,
      others.foldl (fun acc r =>
        let otherParas := (splitBlank r.content.data).filter (fun p => 100 < (trimL p).length)
        acc ++ (otherParas.filter (fun p => ¬ isInBase (splitBlank base.data) p)).map
          (fun p => String.mk (trimL p))) acc
      = acc ++ (others.map (specAdds base)).flatten by
    simpa [uniqueAdditions] using h []
  induction others with
  | nil => intro acc; simp
  | cons r rs ih =>
    intro acc
    simp only [List.foldl_cons, List.map_cons, List.flatten_cons]
    rw [ih, List.append_assoc]
    congr 2
    unfold specAdds
    rw [List.filter_filter]
    congr 1
    apply List.filter_congr
    intro p _
    rw [isInBase_eq_specDuplicateB, Bool.and_comm]
    cases specDuplicateB base p <;> simp

/-- Claim C5 (amended): with at least two qualifying drafts, the first longest
qualifying draft is the base; the additions are exactly the blank-line
paragraphs of each other draft whose trimmed length exceeds 100 and for which
no base paragraph shares more than 6 of the first 10 lower-cased tokens,
trimmed and in draft order; they are spliced immediately before the petition
section when the case-insensitive SUPLICA/SOLICITA search finds it at a
strictly positive index, and appended after a `---` separator when no petition
section is found *or when it is found at index 0* (the source tests
`supIdx > 0`, treating a match at the very start like no match). -/
theorem c5_heuristic_merge_amended (responses : List DraftResponse)
    (r1 r2 : DraftResponse) (rest : List DraftResponse) (b : DraftResponse)
    (others : List DraftResponse)
    (hfil : responses.filter qualifies = r1 :: r2 :: rest)
    (hsort : sortDesc (fun r => r.content.length) (r1 :: r2 :: rest) = b :: others) :
    (r1 :: r2 :: rest).find? (fun r => (r1 :: r2 :: rest).all
        (fun s => s.content.length ≤ r.content.length)) = some b ∧
    (b :: others).Perm (r1 :: r2 :: rest) ∧
    uniqueAdditions b.content others = (others.map (specAdds b.content)).flatten ∧
    (uniqueAdditions b.content others = [] → mergeResponses responses = b.content) ∧
    (uniqueAdditions b.content others ≠ [] →
      (∀ i, findSup b.content.data = some i → 0 < i →
        mergeResponses responses =
          String.mk (b.content.data.take i) ++ "\n\n" ++
            joinSep "\n\n" (uniqueAdditions b.content others) ++ "\n\n" ++
            String.mk (b.content.data.drop i)) ∧
      ((findSup b.content.data = none ∨ findSup b.content.data = some 0) →
        mergeResponses responses =
          b.content ++ "\n\n---\n\n" ++ joinSep "\n\n" (uniqueAdditions b.content others))) ∧
    (∀ i, findSup b.content.data = some i →
      petitionAt b.content.data i ∧ ∀ j, j < i → ¬ petitionAt b.content.data j) ∧
    (findSup b.content.data = none → ∀ j, ¬ petitionAt b.content.data j) := by
  have hres : mergeResponses responses =
      (if uniqueAdditions b.content others = [] then b.content
       else
         let supIdx : Int := match findSup b.content.data with
           | some i => (i : Int)
           | none => -1
         if 0 < supIdx then
           String.mk (b.content.data.take supIdx.toNat) ++ "\n\n" ++
             joinSep "\n\n" (uniqueAdditions b.content others) ++ "\n\n" ++
             String.mk (b.content.data.drop supIdx.toNat)
         else b.content ++ "\n\n---\n\n" ++ joinSep "\n\n" (uniqueAdditions b.content others)) := by
    simp only [mergeResponses, hfil, hsort]
  refine ⟨sortDesc_head_first_max _ _ _ _ hsort, hsort ▸ sortDesc_perm _ _,
    uniqueAdditions_eq b.content others, ?_, ?_, (findSup_least b.content.data).1,
    (findSup_least b.content.data).2⟩
  · intro hadds
    rw [hres, if_pos hadds]
  · intro hadds
    constructor
    · intro i hsup hpos
      rw [hres, if_neg hadds]
      simp only [hsup]
      rw [if_pos (by exact_mod_cast hpos)]
      simp [Int.toNat_natCast]
    · rintro (hsup | hsup)
      · rw [hres, if_neg hadds]
        simp only [hsup]
        rw [if_neg (by decide : ¬ ((0 : Int) < -1))]
      · rw [hres, if_neg hadds]
        simp only [hsup]
        rw [if_neg (by decide : ¬ ((0 : Int) < ((0 : Nat) : Int)))]

/-! Counterexample data: a base draft whose petition word is at index 0. -/

def cxBaseSup : String := String.mk ("SOLICITA ".data ++ List.replicate 110 'a')
def cxOther : String := String.mk (List.replicate 101 'b')
def cxRespA : DraftResponse := ⟨"Agente Mistral", cxBaseSup⟩
def cxRespB : DraftResponse := ⟨"Agente Llama", cxOther⟩

/-- Claim C5 counterexample: when the base draft *starts* with a petition word
(case-insensitive SOLICITA at index 0), the petition section exists, yet
`mergeResponses` appends the unique paragraphs after the `---` separator
instead of splicing them before the petition section, because the source
checks `supIdx > 0` rather than `supIdx >= 0`. -/
theorem c5_heuristic_merge_counterexample :
    findSup cxBaseSup.data = some 0 ∧
    petitionAt cxBaseSup.data 0 ∧
    mergeResponses [cxRespA, cxRespB] = cxBaseSup ++ "\n\n---\n\n" ++ cxOther ∧
    mergeResponses [cxRespA, cxRespB] ≠
      String.mk (cxBaseSup.data.take 0) ++ "\n\n" ++ cxOther ++ "\n\n" ++
        String.mk (cxBaseSup.data.drop 0) :=
  ⟨by decide, by decide, by decide, by decide⟩

theorem c5_heuristic_merge_amended_witness :
    mergeResponses [cxRespA, cxRespB] =
      cxBaseSup ++ "\n\n---\n\n" ++ joinSep "\n\n" (uniqueAdditions cxBaseSup [cxRespB]) := by
  have h := c5_heuristic_merge_amended [cxRespA, cxRespB] cxRespA cxRespB [] cxRespA
    [cxRespB] (by decide) (by decide)
  exact (h.2.2.2.2.1 (by decide)).2 (Or.inr (by decide))

end RecurreMultas

namespace RecurreMultas

/-! ## Claim C1: per-agent isolation of the phase fan-out
(`POST` handler of app/api/analyze/route.ts, FASE 2 map over `FIXED_AGENTS`
plus the `Promise.allSettled` result mapping) -/

structure AgentDef where
  agentId : String
  agentName : String
  label : String
  color : String
deriving DecidableEq

/-- Outcome of one settled promise of the fan-out (`Promise.allSettled`). -/
inductive Settled (α : Type) where
  | fulfilled (v : α)
  | rejected (msg : String)
deriving DecidableEq

structure AgentEntry where
  agentId : String
  agentName : String
  label : String
  color : String
  status : String
  content : String
  error : Option String
deriving DecidableEq

/-- One agent's entry: `skipped` without a credential; otherwise the fulfilled
`callAgent` response mapped to `error`/`done` by its `error` field, and a
rejected promise mapped to an `error` entry (route.ts lines 167-191). -/
def mkEntry (key : AgentDef → Option String) (call : AgentDef → Settled LLMResponse)
    (a : AgentDef) : AgentEntry :=
  match key a with
  | none =>
    { agentId := a.agentId, agentName := a.agentName, label := a.label, color := a.color,
      status := "skipped", content := "", error := some "Sin API key configurada" }
  | some _ =>
    match call a with
    | .fulfilled r =>
      { agentId := a.agentId, agentName := a.agentName, label := a.label, color := a.color,
        status := if r.error.isSome then "error" else "done",
        content := r.content, error := r.error }
    | .rejected m =>
      { agentId := a.agentId, agentName := a.agentName, label := a.label, color := a.color,
        status := "error", content := "", error := some m }

/-- The phase fan-out: one entry per configured agent, in order. -/
def runPhase (key : AgentDef → Option String) (call : AgentDef → Settled LLMResponse)
    (agents : List AgentDef) : List AgentEntry :=
  agents.map (mkEntry key call)

theorem mkEntry_agentId (key : AgentDef → Option String)
    (call : AgentDef → Settled LLMResponse) (a : AgentDef) :
    (mkEntry key call a).agentId = a.agentId := by
  unfold mkEntry
  rcases key a with _ | k
  · rfl
  · rcases call a with r | m <;> rfl

theorem mkEntry_congr (key key2 : AgentDef → Option String)
    (call call2 : AgentDef → Settled LLMResponse) (a : AgentDef)
    (hk : key2 a = key a) (hc : call2 a = call a) :
    mkEntry key2 call2 a = mkEntry key call a := by
  unfold mkEntry
  rw [hk, hc]

/-- With pairwise-distinct agent ids, the entries carrying a given agent's id
are exactly that agent's own single entry. -/
theorem runPhase_filter_id (agents : List AgentDef)
    (key : AgentDef → Option String) (call : AgentDef → Settled LLMResponse)
    (B : AgentDef) (hB : B ∈ agents)
    (hnodup : (agents.map (fun a => a.agentId)).Nodup) :
    (runPhase key call agents).filter (fun e => e.agentId = B.agentId) =
      [mkEntry key call B] := by
  induction agents with
  | nil => cases hB
  | cons a rest ih =>
    have hnodup2 : (rest.map (fun a => a.agentId)).Nodup :=
      (List.nodup_cons.mp hnodup).2
    have hanotin : a.agentId ∉ rest.map (fun a => a.agentId) :=
      (List.nodup_cons.mp hnodup).1
    simp only [runPhase, List.map_cons, List.filter_cons]
    rcases List.mem_cons.mp hB with hBa | hBrest
    · subst hBa
      rw [mkEntry_agentId]
      simp only [decide_eq_true_eq, eq_self_iff_true, if_pos]
      have hrest : (rest.map (mkEntry key call)).filter
          (fun e => e.agentId = B.agentId) = [] := by
        rw [List.filter_eq_nil_iff]
        intro e he
        rcases List.mem_map.mp he with ⟨x, hx, hxe⟩
        rw [← hxe, mkEntry_agentId]
        simp only [decide_eq_true_eq]
        intro hcon
        exact hanotin (hcon ▸ List.mem_map.mpr ⟨x, hx, rfl⟩)
      rw [hrest]
    · have hne : ¬ ((mkEntry key call a).agentId = B.agentId) := by
        rw [mkEntry_agentId]
        intro hcon
        exact hanotin (hcon ▸ List.mem_map.mpr ⟨B, hBrest, rfl⟩)
      simp only [hne, decide_eq_false, Bool.false_eq_true, if_neg, not_false_iff]
      exact ih hBrest hnodup2

/-- Claim C1: in the phase fan-out each agent's entry is a function of that
agent's own credential and call outcome alone.  For configured agents with
pairwise-distinct ids, if agent A's call is rejected or resolves with an error
while agent B's call succeeds with non-empty content, the result set holds
exactly one `error` entry under A's id and exactly one `done` entry under B's
id, B's entry carries B's returned content verbatim, and B's entry is
unchanged under any modification of the other agents' outcomes. -/
theorem c1_agent_isolation (agents : List AgentDef)
    (key : AgentDef → Option String) (call : AgentDef → Settled LLMResponse)
    (A B : AgentDef) (hA : A ∈ agents) (hB : B ∈ agents)
    (hnodup : (agents.map (fun a => a.agentId)).Nodup)
    (kA : String) (hkA : key A = some kA)
    (hAfail : (∃ m, call A = .rejected m) ∨
      (∃ r, call A = .fulfilled r ∧ r.error.isSome))
    (kB : String) (hkB : key B = some kB)
    (c : String) (hBok : call B = .fulfilled { content := c, error := none }) :
    ((runPhase key call agents).countP
      (fun e => e.agentId = A.agentId && e.status = "error") = 1) ∧
    ((runPhase key call agents).countP
      (fun e => e.agentId = B.agentId && e.status = "done") = 1) ∧
    (∀ e ∈ runPhase key call agents, e.agentId = B.agentId →
      e.status = "done" ∧ e.content = c ∧ e.error = none) ∧
    (∀ key2 call2, key2 B = key B → call2 B = call B →
      (runPhase key2 call2 agents).filter (fun e => e.agentId = B.agentId) =
        (runPhase key call agents).filter (fun e => e.agentId = B.agentId)) := by
  have hentryB : mkEntry key call B =
      { agentId := B.agentId, agentName := B.agentName, label := B.label, color := B.color,
        status := "done", content := c, error := none } := by
    simp [mkEntry, hkB, hBok]
  have hentryA : (mkEntry key call A).status = "error" := by
    rcases hAfail with ⟨m, hm⟩ | ⟨r, hr, herr⟩
    · simp [mkEntry, hkA, hm]
    · simp [mkEntry, hkA, hr, herr]
  have hfiltA := runPhase_filter_id agents key call A hA hnodup
  have hfiltB := runPhase_filter_id agents key call B hB hnodup
  have hcount : ∀ (q p : AgentEntry → Bool) (x : AgentEntry),
      (runPhase key call agents).filter q = [x] →
      (runPhase key call agents).countP (fun e => q e && p e) =
        if p x then 1 else 0 := by
    intro q p x hx
    have hcomm : (fun e => q e && p e) = (fun e => p e && q e) := by
      funext e; exact Bool.and_comm _ _
    rw [hcomm, ← List.countP_filter, hx]
    simp [List.countP_cons]
  refine ⟨?_, ?_, ?_, ?_⟩
  · rw [hcount (fun e => e.agentId = A.agentId) (fun e => e.status = "error")
      (mkEntry key call A) hfiltA]
    simp [hentryA]
  · rw [hcount (fun e => e.agentId = B.agentId) (fun e => e.status = "done")
      (mkEntry key call B) hfiltB]
    simp [hentryB]
  · intro e he hid
    have hmem : e ∈ (runPhase key call agents).filter
        (fun e => e.agentId = B.agentId) :=
      List.mem_filter.mpr ⟨he, decide_eq_true hid⟩
    rw [hfiltB] at hmem
    have : e = mkEntry key call B := by simpa using hmem
    rw [this, hentryB]
    exact ⟨rfl, rfl, rfl⟩
  · intro key2 call2 hk2 hc2
    rw [hfiltB, runPhase_filter_id agents key2 call2 B hB hnodup,
      mkEntry_congr key key2 call call2 B hk2 hc2]

end RecurreMultas

namespace RecurreMultas

def wAgentA : AgentDef :=
  ⟨"agent-mistral", "Agente Mistral", "Mistral · Mistral Small", "#f97316"⟩
def wAgentB : AgentDef :=
  ⟨"agent-openrouter-1", "Agente Llama", "OpenRouter · Llama 3.3 70B :free", "#8b5cf6"⟩
def wContent : String := "RECURSO DE REPOSICIÓN — HECHOS Y FUNDAMENTOS DE DERECHO"

def wKey : AgentDef → Option String := fun _ => some "sk-test"

def wCall : AgentDef → Settled LLMResponse := fun a =>
  if a.agentId = "agent-mistral" then .rejected "Mistral 429: capacity exceeded"
  else .fulfilled { content := wContent, error := none }

theorem c1_agent_isolation_witness :
    ((runPhase wKey wCall [wAgentA, wAgentB]).countP
      (fun e => e.agentId = wAgentA.agentId && e.status = "error") = 1) ∧
    ((runPhase wKey wCall [wAgentA, wAgentB]).countP
      (fun e => e.agentId = wAgentB.agentId && e.status = "done") = 1) := by
  have h := c1_agent_isolation [wAgentA, wAgentB] wKey wCall wAgentA wAgentB
    (by decide) (by decide) (by decide) "sk-test" rfl
    (Or.inl ⟨"Mistral 429: capacity exceeded", rfl⟩) "sk-test" rfl
    wContent rfl
  exact ⟨h.1, h.2.1⟩

end RecurreMultas

namespace RecurreMultas

/-! ## Claims C6 and C7: metadata extraction and field-wise consensus
(`extractWithOneAgent` / `extractFineMetadata`, lib/llm.ts two-phase revision) -/

structure FineMetadata where
  legislation : List String
  organism : String
  organismAddress : String
  fineType : String
  fineAmount : String
  deadline : String
  rawSummary : String
deriving DecidableEq

/-- The all-empty record returned when no agent produced a candidate. -/
def emptyMetadata : FineMetadata := ⟨[], "", "", "", "", "", ""⟩

/-- Case-insensitive deduplication key of a legislation entry
(`l.trim().toLowerCase()`). -/
def legKey (l : String) : List Char := (trimL l.data).map jsLower

/-- All legislation entries across the candidates, in candidate order
(the nested `for` loops of the merge). -/
def legEntries (valid : List FineMetadata) : List String :=
  (valid.map (fun v => v.legislation)).flatten

/-- The `legCount`/`legOriginal` objects: an insertion-ordered tally of the
non-empty-keyed entries; the payload stays the first occurrence
(`if (!legOriginal[key]) legOriginal[key] = l.trim()`). -/
def legTally (valid : List FineMetadata) : List (TEntry (List Char) String) :=
  tally legKey (fun st _ => st) ((legEntries valid).filter (fun l => legKey l ≠ []))

/-- Trimmed, non-empty organisms in candidate order
(`const o = (v.organism || "").trim(); if (o) ...`). -/
def orgEntries (valid : List FineMetadata) : List String :=
  (valid.map (fun v => String.mk (trimL v.organism.data))).filter (fun o => o ≠ "")

def orgTally (valid : List FineMetadata) : List (TEntry String String) :=
  tally (fun o : String => o) (fun st _ => st) (orgEntries valid)

/-- `Object.entries(orgCount).sort((a,b) => b[1]-a[1])[0]?.[0] || ""`. -/
def organismOf (valid : List FineMetadata) : String :=
  match sortDesc (fun e => e.count) (orgTally valid) with
  | [] => ""
  | e :: _ => e.key

/-- `pickLongest`: longest non-empty value, first-seen on ties (stable JS
sort by length descending, index 0). -/
def pickLongest (vals : List String) : String :=
  match sortDesc (fun s => s.length) (vals.filter (fun x => 0 < x.length)) with
  | [] => ""
  | s :: _ => s

/-- The consensus merge of `extractFineMetadata` on a non-empty candidate
list. -/
def mergeConsensus (valid : List FineMetadata) : FineMetadata :=
  { legislation := (sortDesc (fun e => e.count) (legTally valid)).map
      (fun e => String.mk (trimL e.payload.data)),
    organism := organismOf valid,
    organismAddress := pickLongest (valid.map (fun v => v.organismAddress)),
    fineType := pickLongest (valid.map (fun v => v.fineType)),
    fineAmount := pickLongest (valid.map (fun v => v.fineAmount)),
    deadline := pickLongest (valid.map (fun v => v.deadline)),
    rawSummary := pickLongest (valid.map (fun v => v.rawSummary)) }

/-- `extractFineMetadata` over the already-settled candidate list: the
all-empty record when no candidate parsed, the consensus merge otherwise. -/
def extractConsensus (valid : List FineMetadata) : FineMetadata :=
  match valid with
  | [] => emptyMetadata
  | _ :: _ => mergeConsensus valid

/-- Total number of mentions of a legislation key across all candidates
(an agent repeating an entry contributes each repetition). -/
def mentionCount (valid : List FineMetadata) (k : List Char) : Nat :=
  (legEntries valid).countP (fun l => legKey l = k)

/-- Number of agents whose candidate mentions the key at least once — the
quantity the specification claims the ordering uses. -/
def agentCount (valid : List FineMetadata) (k : List Char) : Nat :=
  valid.countP (fun v => v.legislation.any (fun l => legKey l = k))

def cxMetaA : FineMetadata :=
  { legislation := ["Art. 91.2 LSV", "art. 91.2 lsv"], organism := "DGT",
    organismAddress := "", fineType := "", fineAmount := "", deadline := "",
    rawSummary := "" }
def cxMetaB : FineMetadata :=
  { legislation := ["Art. 18 RGC"], organism := "DGT",
    organismAddress := "", fineType := "", fineAmount := "", deadline := "",
    rawSummary := "" }
def cxMetaC : FineMetadata :=
  { legislation := ["Art. 18 RGC"], organism := "Ayuntamiento de Madrid",
    organismAddress := "", fineType := "", fineAmount := "", deadline := "",
    rawSummary := "" }

/-- Claim C6 counterexample: one agent repeats "Art. 91.2 LSV" twice (in two
casings) while two distinct agents each cite "Art. 18 RGC".  The merge counts
total mentions, not agents, so both keys tie at 2 mentions and insertion order
keeps "Art. 91.2 LSV" (mentioned by one agent) ahead of "Art. 18 RGC"
(mentioned by two agents) — violating the claimed most-agents-first order. -/
theorem c6_metadata_consensus_counterexample :
    (extractConsensus [cxMetaA, cxMetaB, cxMetaC]).legislation =
      ["Art. 91.2 LSV", "Art. 18 RGC"] ∧
    agentCount [cxMetaA, cxMetaB, cxMetaC] (legKey "Art. 91.2 LSV") = 1 ∧
    agentCount [cxMetaA, cxMetaB, cxMetaC] (legKey "Art. 18 RGC") = 2 ∧
    (extractConsensus [cxMetaA, cxMetaB, cxMetaC]).organism = "DGT" :=
  ⟨by decide, by decide, by decide, by decide⟩

end RecurreMultas

namespace RecurreMultas

theorem foldl_keep (x : α) (l : List β) : l.foldl (fun st _ => st) x = x := by
  induction l generalizing x with
  | nil => rfl
  | cons y ys ih => exact ih x

theorem groupFold_keep (l : List α) : groupFold (fun st _ => st) l = l.head? := by
  cases l with
  | nil => rfl
  | cons x rest => simp [groupFold, foldl_keep]

/-- Claim C6 (amended): for every non-empty candidate list the merged record
satisfies: the legislation list is the insertion-ordered case-insensitive
deduplication of all trimmed non-empty entries, displayed as the trimmed first
occurrence, ordered by **total mention count** (an agent repeating an entry
contributes each mention) most-mentioned first with ties kept in first-seen
order; the organism is a trimmed non-empty candidate organism of maximal
exact-match occurrence count, ties kept in first-seen order; every other
scalar field is the first-seen longest non-empty candidate value. -/
theorem c6_metadata_consensus_amended (valid : List FineMetadata) (hne : valid ≠ []) :
    ((extractConsensus valid).legislation =
      (sortDesc (fun e => e.count) (legTally valid)).map
        (fun e => String.mk (trimL e.payload.data))) ∧
    ((legTally valid).map (fun e => e.key) =
      dedupIns (((legEntries valid).filter (fun l => legKey l ≠ [])).map legKey)) ∧
    (∀ e ∈ legTally valid, e.count = mentionCount valid e.key) ∧
    (∀ e ∈ legTally valid, some e.payload =
      (((legEntries valid).filter (fun l => legKey l ≠ [])).filter
        (fun l => legKey l = e.key)).head?) ∧
    ((sortDesc (fun e => e.count) (legTally valid)).Pairwise
      (fun e1 e2 => e2.count ≤ e1.count)) ∧
    (∀ c, (sortDesc (fun e => e.count) (legTally valid)).filter (fun e => e.count = c) =
      (legTally valid).filter (fun e => e.count = c)) ∧
    ((extractConsensus valid).organism = organismOf valid) ∧
    (orgEntries valid = [] → organismOf valid = "") ∧
    (orgEntries valid ≠ [] →
      organismOf valid ∈ orgEntries valid ∧
      ∀ o ∈ orgEntries valid,
        (orgEntries valid).countP (fun x => x = o) ≤
          (orgEntries valid).countP (fun x => x = organismOf valid)) ∧
    ((orgTally valid).map (fun e => e.key) = dedupIns (orgEntries valid)) ∧
    (∀ c, (sortDesc (fun e => e.count) (orgTally valid)).filter (fun e => e.count = c) =
      (orgTally valid).filter (fun e => e.count = c)) ∧
    ((extractConsensus valid).organismAddress =
        pickLongest (valid.map (fun v => v.organismAddress)) ∧
      (extractConsensus valid).fineType = pickLongest (valid.map (fun v => v.fineType)) ∧
      (extractConsensus valid).fineAmount = pickLongest (valid.map (fun v => v.fineAmount)) ∧
      (extractConsensus valid).deadline = pickLongest (valid.map (fun v => v.deadline)) ∧
      (extractConsensus valid).rawSummary = pickLongest (valid.map (fun v => v.rawSummary))) ∧
    (∀ vals : List String,
      (vals.filter (fun x => 0 < x.length) = [] → pickLongest vals = "") ∧
      (∀ s rest2,
        sortDesc (fun s => s.length) (vals.filter (fun x => 0 < x.length)) = s :: rest2 →
        pickLongest vals = s ∧ s ∈ vals ∧
        (∀ v ∈ vals.filter (fun x => 0 < x.length), v.length ≤ s.length) ∧
        (vals.filter (fun x => 0 < x.length)).find?
          (fun r => (vals.filter (fun x => 0 < x.length)).all
            (fun t => t.length ≤ r.length)) = some s)) := by
  obtain ⟨v0, vrest, rfl⟩ : ∃ v0 vrest, valid = v0 :: vrest := by
    cases valid with
    | nil => exact absurd rfl hne
    | cons v vs => exact ⟨v, vs, rfl⟩
  set valid := v0 :: vrest with hvalid
  have hlegspec := tally_spec legKey (fun st _ : String => st)
    ((legEntries valid).filter (fun l => legKey l ≠ []))
  obtain ⟨hlegKeys, hlegCount, hlegPayload⟩ := hlegspec
  replace hlegKeys : (legTally valid).map (fun e => e.key) =
      dedupIns (((legEntries valid).filter (fun l => legKey l ≠ [])).map legKey) := hlegKeys
  replace hlegCount : ∀ e ∈ legTally valid, e.count =
      ((legEntries valid).filter (fun l => legKey l ≠ [])).countP
        (fun x => legKey x = e.key) := hlegCount
  replace hlegPayload : ∀ e ∈ legTally valid, some e.payload =
      groupFold (fun st _ : String => st)
        (((legEntries valid).filter (fun l => legKey l ≠ [])).filter
          (fun x => legKey x = e.key)) := hlegPayload
  have horgspec := tally_spec (fun o : String => o) (fun st _ : String => st)
    (orgEntries valid)
  obtain ⟨horgKeys0, horgCount, _⟩ := horgspec
  have horgKeys : (orgTally valid).map (fun e => e.key) = dedupIns (orgEntries valid) := by
    simpa [orgTally] using horgKeys0
  refine ⟨rfl, hlegKeys, ?_, ?_, sortDesc_pairwise _ _, fun c => sortDesc_filter_key _ _ c,
    rfl, ?_, ?_, horgKeys, fun c => sortDesc_filter_key _ _ c,
    ⟨rfl, rfl, rfl, rfl, rfl⟩, ?_⟩
  · -- tally counts agree with total mention counts
    intro e he
    have hkey : e.key ≠ [] := by
      have : e.key ∈ (legTally valid).map (fun e => e.key) :=
        List.mem_map.mpr ⟨e, he, rfl⟩
      rw [hlegKeys, mem_dedupIns] at this
      rcases List.mem_map.mp this with ⟨l, hl, hlk⟩
      have := (List.mem_filter.mp hl).2
      simp only [decide_eq_true_eq] at this
      rw [← hlk]
      exact this
    rw [hlegCount e he]
    unfold mentionCount
    rw [List.countP_filter]
    apply List.countP_congr
    intro l _
    constructor
    · intro h
      exact (Bool.and_elim_left h)
    · intro h
      refine Bool.and_intro h (decide_eq_true ?_)
      have := of_decide_eq_true h
      rw [this]
      exact hkey
  · -- payload is the first occurrence with that key
    intro e he
    have := hlegPayload e he
    rw [this, groupFold_keep]
  · -- no organism candidates: empty organism
    intro hos
    have : orgTally valid = [] := by
      have h1 : dedupIns (orgEntries valid) = [] := by rw [hos]; rfl
      have h2 := horgKeys
      rw [h1] at h2
      exact List.map_eq_nil_iff.mp h2
    simp [organismOf, this, sortDesc]
  · -- majority organism
    intro hos
    rcases hsort : sortDesc (fun e => e.count) (orgTally valid) with _ | ⟨hd, tl⟩
    · exfalso
      have hlen := (sortDesc_perm (fun e : TEntry String String => e.count)
        (orgTally valid)).length_eq
      rw [hsort] at hlen
      have htnil : orgTally valid = [] := List.length_eq_zero.mp hlen.symm
      have h2 := horgKeys
      rw [htnil] at h2
      rcases List.exists_mem_of_ne_nil _ hos with ⟨o, ho⟩
      have : o ∈ dedupIns (orgEntries valid) := (mem_dedupIns o _).mpr ho
      rw [← h2] at this
      simp at this
    · have hof : organismOf valid = hd.key := by
        simp [organismOf, hsort]
      have hhdmem : hd ∈ orgTally valid := by
        have : hd ∈ sortDesc (fun e => e.count) (orgTally valid) := by
          rw [hsort]; exact List.mem_cons_self hd tl
        exact (sortDesc_perm _ _).mem_iff.mp this
      have hhdos : hd.key ∈ orgEntries valid := by
        have : hd.key ∈ (orgTally valid).map (fun e => e.key) :=
          List.mem_map.mpr ⟨hd, hhdmem, rfl⟩
        rw [horgKeys, mem_dedupIns] at this
        exact this
      have hhdcount : hd.count = (orgEntries valid).countP (fun x => x = hd.key) := by
        have := horgCount hd hhdmem
        simpa using this
      refine ⟨hof ▸ hhdos, ?_⟩
      intro o ho
      have hodedup : o ∈ dedupIns (orgEntries valid) := (mem_dedupIns o _).mpr ho
      rw [← horgKeys] at hodedup
      rcases List.mem_map.mp hodedup with ⟨e, he, hek⟩
      have hecount : e.count = (orgEntries valid).countP (fun x => x = o) := by
        have := horgCount e he
        simpa [hek] using this
      have hle : e.count ≤ hd.count := sortDesc_head_max _ _ _ _ hsort e he
      rw [hof, ← hhdcount, ← hecount]
      exact hle
  · -- pickLongest characterization
    intro vals
    constructor
    · intro hnilf
      simp [pickLongest, hnilf, sortDesc]
    · intro s rest2 hsorteq
      have hsmemf : s ∈ vals.filter (fun x => 0 < x.length) :=
        sortDesc_head_mem _ _ _ _ hsorteq
      refine ⟨by simp [pickLongest, hsorteq], (List.mem_filter.mp hsmemf).1,
        sortDesc_head_max _ _ _ _ hsorteq, sortDesc_head_first_max _ _ _ _ hsorteq⟩

theorem c6_metadata_consensus_amended_witness :
    (extractConsensus [cxMetaA, cxMetaB, cxMetaC]).organism =
      organismOf [cxMetaA, cxMetaB, cxMetaC] ∧
    organismOf [cxMetaA, cxMetaB, cxMetaC] ∈ orgEntries [cxMetaA, cxMetaB, cxMetaC] ∧
    (∀ e ∈ legTally [cxMetaA, cxMetaB, cxMetaC],
      e.count = mentionCount [cxMetaA, cxMetaB, cxMetaC] e.key) := by
  have h := c6_metadata_consensus_amended [cxMetaA, cxMetaB, cxMetaC] (by decide)
  obtain ⟨_, _, hcount, _, _, _, horg, _, hmaj, _⟩ := h
  exact ⟨horg, (hmaj (by decide)).1, hcount⟩

end RecurreMultas

namespace RecurreMultas

/-- Result of `JSON.parse(jsonMatch[0]) as FineMetadata`: the cast performs no
validation, so every field may be absent (`undefined`).  (Fields of entirely
wrong runtime type are outside this model; absence is the relevant
non-conformance here.) -/
structure RawFineMetadata where
  legislation : Option (List String)
  organism : Option String
  organismAddress : Option String
  fineType : Option String
  fineAmount : Option String
  deadline : Option String
  rawSummary : Option String
deriving DecidableEq

def tick : Char := Char.ofNat 96

/-- Skip to just past the first closing fence (three consecutive backticks). -/
def dropThroughClose : List Char → Option (List Char)
  | [] => none
  | c1 :: rest =>
    match rest with
    | c2 :: c3 :: rest2 =>
      if c1 = tick ∧ c2 = tick ∧ c3 = tick then some rest2
      else dropThroughClose rest
    | _ => none

/-- `raw.replace(/```json[\s\S]*?```|```[\s\S]*?```/g, "")`: remove every
lazily-closed fenced block (from an opening triple backtick through the first
following triple backtick), fence markers and fenced content alike; an
unclosed opening fence is left in place.  Fuel-driven so the definition
reduces in the kernel; the fuel is the input length, which the scan never
exhausts. -/
def stripFencesGo : Nat → List Char → List Char
  | 0, l => l
  | _ + 1, [] => []
  | fuel + 1, c1 :: rest =>
    if c1 = tick then
      match rest with
      | c2 :: c3 :: rest2 =>
        if c2 = tick ∧ c3 = tick then
          match dropThroughClose rest2 with
          | some rem => stripFencesGo fuel rem
          | none => c1 :: stripFencesGo fuel rest
        else c1 :: stripFencesGo fuel rest
      | _ => c1 :: stripFencesGo fuel rest
    else c1 :: stripFencesGo fuel rest

def stripFences (l : List Char) : List Char := stripFencesGo l.length l

def lbrace : Char := Char.ofNat 123
def rbrace : Char := Char.ofNat 125

/-- `clean.match(/\{[\s\S]*\}/)`: the segment from the first opening brace to
the last closing brace, when the latter comes after the former. -/
def braceScan (l : List Char) : Option (List Char) :=
  match l.findIdx? (fun c => c = lbrace) with
  | none => none
  | some i =>
    match l.reverse.findIdx? (fun c => c = rbrace) with
    | none => none
    | some rj =>
      let j := l.length - 1 - rj
      if i < j then some ((l.drop i).take (j - i + 1)) else none

/-- One agent's candidate as a function of the platform `JSON.parse` (an
external capability, passed as an oracle): strip fences, trim, scan for the
brace segment, parse; any failure yields no candidate (`null`). -/
def extractCandidate (parseJson : String → Option RawFineMetadata) (raw : String) :
    Option RawFineMetadata :=
  match braceScan (trimL (stripFences raw.data)) with
  | none => none
  | some seg => parseJson (String.mk seg)

/-- The legislation loop of `extractFineMetadata` (`for (const l of
v.legislation)`): iterating a missing field throws a `TypeError`. -/
def collectLegislation : List RawFineMetadata → Except String (List String)
  | [] => .ok []
  | v :: rest =>
    match v.legislation with
    | none => .error "TypeError: v.legislation is not iterable"
    | some ls =>
      match collectLegislation rest with
      | .error e => .error e
      | .ok r => .ok (ls ++ r)

/-- Reading an unvalidated candidate with the source's `|| ""` / implicit
defaults: absent scalar fields read as `""`, the legislation field as `[]`
(the latter is only reached when iteration did not throw). -/
def toFineMetadata (v : RawFineMetadata) : FineMetadata :=
  { legislation := v.legislation.getD [],
    organism := v.organism.getD "",
    organismAddress := v.organismAddress.getD "",
    fineType := v.fineType.getD "",
    fineAmount := v.fineAmount.getD "",
    deadline := v.deadline.getD "",
    rawSummary := v.rawSummary.getD "" }

/-- `extractFineMetadata` over the settled per-agent candidates: parse
failures are `none` and are dropped; with no candidate the all-empty record is
returned; otherwise the merge runs, and its legislation loop throws when a
candidate's `legislation` field is missing. -/
def extractFineMetadataRaw (candidates : List (Option RawFineMetadata)) :
    Except String FineMetadata :=
  match candidates.filterMap id with
  | [] => .ok emptyMetadata
  | v :: vs =>
    match collectLegislation (v :: vs) with
    | .error e => .error e
    | .ok _ => .ok (mergeConsensus ((v :: vs).map toFineMetadata))

/-- The non-conforming (but parseable) candidate `{"organism":"DGT"}`. -/
def cxRawCandidate : RawFineMetadata :=
  { legislation := none, organism := some "DGT", organismAddress := none,
    fineType := none, fineAmount := none, deadline := none, rawSummary := none }

/-- Claim C7 counterexample: a reply whose JSON parses but lacks the
`legislation` field *is* kept as a candidate, and the merge's `for (const l of
v.legislation)` then throws a `TypeError` — `extractFineMetadata` itself is
not exception-free (its callers wrap it in `try/catch`). -/
theorem c7_extraction_counterexample :
    extractFineMetadataRaw [some cxRawCandidate] =
      Except.error "TypeError: v.legislation is not iterable" ∧
    (∀ m : FineMetadata, extractFineMetadataRaw [some cxRawCandidate] ≠ Except.ok m) := by
  refine ⟨rfl, ?_⟩
  intro m h
  simp [extractFineMetadataRaw, collectLegislation, cxRawCandidate] at h

theorem collectLegislation_error_iff (l : List RawFineMetadata) :
    (∃ e, collectLegislation l = .error e) ↔ ∃ v ∈ l, v.legislation = none := by
  induction l with
  | nil =>
    constructor
    · rintro ⟨e, he⟩; cases he
    · rintro ⟨v, hv, _⟩; cases hv
  | cons v rest ih =>
    constructor
    · rintro ⟨e, he⟩
      unfold collectLegislation at he
      rcases hleg : v.legislation with _ | ls
      · exact ⟨v, List.mem_cons_self v rest, hleg⟩
      · rw [hleg] at he
        rcases hrec : collectLegislation rest with e2 | r
        · rcases ih.mp ⟨e2, hrec⟩ with ⟨w, hw, hwleg⟩
          exact ⟨w, List.mem_cons.mpr (Or.inr hw), hwleg⟩
        · rw [hrec] at he; cases he
    · rintro ⟨w, hw, hwleg⟩
      unfold collectLegislation
      rcases hleg : v.legislation with _ | ls
      · exact ⟨"TypeError: v.legislation is not iterable", rfl⟩
      · rcases List.mem_cons.mp hw with hwv | hwrest
        · rw [hwv, hleg] at hwleg; cases hwleg
        · rcases ih.mpr ⟨w, hwrest, hwleg⟩ with ⟨e2, he2⟩
          rw [he2]
          exact ⟨e2, rfl⟩

/-- Claim C7 (amended): per-agent parse failures yield no candidate; with zero
candidates the all-empty record is returned; with candidates the merge result
is returned *provided every candidate carries a legislation field*, and the
function throws (modelled as `Except.error`) exactly when some parsed
candidate lacks it; a reply with no brace segment, or whose brace segment the
platform JSON parser rejects, contributes no candidate. -/
theorem c7_extraction_default_safety
    (parseJson : String → Option RawFineMetadata)
    (candidates : List (Option RawFineMetadata)) (raw : String) :
    (candidates.filterMap id = [] → extractFineMetadataRaw candidates = .ok emptyMetadata) ∧
    ((∃ e, extractFineMetadataRaw candidates = .error e) ↔
      ∃ v ∈ candidates.filterMap id, v.legislation = none) ∧
    ((∀ v ∈ candidates.filterMap id, v.legislation ≠ none) →
      extractFineMetadataRaw candidates =
        .ok (extractConsensus ((candidates.filterMap id).map toFineMetadata))) ∧
    (braceScan (trimL (stripFences raw.data)) = none →
      extractCandidate parseJson raw = none) ∧
    (∀ seg, braceScan (trimL (stripFences raw.data)) = some seg →
      extractCandidate parseJson raw = parseJson (String.mk seg)) := by
  refine ⟨?_, ?_, ?_, ?_, ?_⟩
  · intro h
    simp [extractFineMetadataRaw, h]
  · rcases hval : candidates.filterMap id with _ | ⟨v, vs⟩
    · constructor
      · rintro ⟨e, he⟩
        simp [extractFineMetadataRaw, hval] at he
      · rintro ⟨w, hw, _⟩
        cases hw
    · rw [← collectLegislation_error_iff (v :: vs)]
      constructor
      · rintro ⟨e, he⟩
        simp only [extractFineMetadataRaw, hval] at he
        rcases hrec : collectLegislation (v :: vs) with e2 | r
        · exact ⟨e2, rfl⟩
        · rw [hrec] at he; simp at he
      · rintro ⟨e, he⟩
        refine ⟨e, ?_⟩
        simp only [extractFineMetadataRaw, hval, he]
  · intro h
    rcases hval : candidates.filterMap id with _ | ⟨v, vs⟩
    · simp [extractFineMetadataRaw, hval, extractConsensus]
    · simp only [extractFineMetadataRaw, hval]
      rcases hrec : collectLegislation (v :: vs) with e2 | r
      · exfalso
        rcases (collectLegislation_error_iff (v :: vs)).mp ⟨e2, hrec⟩ with ⟨w, hw, hwleg⟩
        exact h w (by rw [hval]; exact hw) hwleg
      · simp [extractConsensus]
  · intro h
    simp [extractCandidate, h]
  · intro seg h
    simp [extractCandidate, h]

def wParseJson : String → Option RawFineMetadata := fun _ => none

def wRawOk : RawFineMetadata :=
  { legislation := some ["Art. 91.2 LSV"], organism := some "DGT",
    organismAddress := none, fineType := none, fineAmount := none,
    deadline := none, rawSummary := none }

theorem c7_extraction_default_safety_witness :
    extractFineMetadataRaw [] = .ok emptyMetadata ∧
    extractFineMetadataRaw [some wRawOk, none] =
      .ok (extractConsensus (([some wRawOk, none].filterMap id).map toFineMetadata)) ∧
    extractCandidate wParseJson "sin json" = none := by
  have h0 := c7_extraction_default_safety wParseJson ([] : List (Option RawFineMetadata)) "sin json"
  have h1 := c7_extraction_default_safety wParseJson [some wRawOk, none] "sin json"
  exact ⟨h0.1 rfl, h1.2.2.1 (by decide), h1.2.2.2.1 (by decide)⟩

end RecurreMultas

namespace RecurreMultas

/-! ## Claim C9: empty-content handling in the revision-2 adapters
(`callMistral` / `callOpenRouter` / `callAgent`, lib/llm.ts) -/

/-- The JSON body fields the adapters read.  `parses` is whether `res.json()`
succeeded (when it fails every field reads as absent); `hasErrorField` models
a truthy in-body `error` property (OpenRouter silent rate limit); `content`
is `choices?.[0]?.message?.content`. -/
structure VendorBody where
  parses : Bool
  message : Option String
  errMessage : Option String
  hasErrorField : Bool
  content : Option String
deriving DecidableEq

/-- JS `x || dflt` on a possibly-absent string (empty string is falsy). -/
def jsOr (o : Option String) (dflt : String) : String :=
  match o with
  | some s => if s = "" then dflt else s
  | none => dflt

/-- `callMistral` (revision 2): non-2xx throws with the best available
message; a missing or empty (`!content`) content field throws
`respuesta vacía`; any other content — including whitespace-only content — is
returned as success.  Numeric status interpolation is elided. -/
def callMistralV2 (ok : Bool) (b : VendorBody) : Except String String :=
  if ok then
    match (if b.parses then b.content else none) with
    | none => .error "Mistral: respuesta vacía"
    | some c => if c = "" then .error "Mistral: respuesta vacía" else .ok c
  else .error (jsOr (if b.parses then b.message else none)
    (jsOr (if b.parses then b.errMessage else none) "Mistral: HTTP"))

/-- `callOpenRouter` (revision 2): unparseable body, non-2xx, in-body error
field, and missing/empty/whitespace-only content (`!content ||
content.trim() === ""`) all throw. -/
def callOpenRouterV2 (ok : Bool) (b : VendorBody) : Except String String :=
  if b.parses then
    if ok then
      if b.hasErrorField then .error (jsOr b.errMessage "OpenRouter: error en el cuerpo")
      else
        match b.content with
        | none => .error "OpenRouter: respuesta vacía o sin choices"
        | some c =>
          if c = "" ∨ trimL c.data = []
          then .error "OpenRouter: respuesta vacía o sin choices"
          else .ok c
    else .error (jsOr b.errMessage (jsOr b.message "OpenRouter: HTTP"))
  else .error "OpenRouter: respuesta no es JSON válido"

/-- One `callAgent` run of revision 2: provider dispatch plus the `catch` that
turns a thrown adapter error into an error response. -/
structure AgentEnvV2 where
  provider : String
  apiKey : String
  ok : Bool
  body : VendorBody
deriving DecidableEq

def callAgentV2 (env : AgentEnvV2) : LLMResponse :=
  if env.apiKey = "" then { content := "", error := some "Sin API key configurada" }
  else
    match (if env.provider = "mistral" then callMistralV2 env.ok env.body
           else callOpenRouterV2 env.ok env.body) with
    | .ok c => { content := c, error := none }
    | .error m => { content := "", error := some m }

/-- Claim C9 counterexample: a 2xx Mistral response whose content is
whitespace-only (`"   "`) passes the `!content` check and `callAgent` returns
it as a *successful* result, contradicting the claim that both adapters treat
whitespace-only content as a failure. -/
def cxWsEnv : AgentEnvV2 :=
  { provider := "mistral", apiKey := "sk-mistral", ok := true,
    body := { parses := true, message := none, errMessage := none,
              hasErrorField := false, content := some "   " } }

theorem c9_empty_response_counterexample :
    callAgentV2 cxWsEnv = { content := "   ", error := none } ∧
    trimL ("   " : String).data = [] :=
  ⟨by decide, by decide⟩

/-- Claim C9 (amended): a successful (`error`-free) `callAgent` result never
has empty content; the OpenRouter adapter additionally rejects
whitespace-only content, but the Mistral adapter does not — it only rejects
falsy (`!content`) content, so a whitespace-only Mistral reply is passed
through as success. -/
theorem c9_empty_response_amended (env : AgentEnvV2) :
    ((callAgentV2 env).error = none → (callAgentV2 env).content ≠ "") ∧
    (env.provider ≠ "mistral" → (callAgentV2 env).error = none →
      trimL (callAgentV2 env).content.data ≠ []) ∧
    (∀ c, callMistralV2 env.ok env.body = .ok c → c ≠ "") ∧
    (∀ c, callOpenRouterV2 env.ok env.body = .ok c → c ≠ "" ∧ trimL c.data ≠ []) := by
  have hm : ∀ c, callMistralV2 env.ok env.body = .ok c → c ≠ "" := by
    intro c hc
    unfold callMistralV2 at hc
    by_cases hok : env.ok = true
    · rw [if_pos hok] at hc
      rcases hcc : (if env.body.parses then env.body.content else none) with _ | c2
      · simp only [hcc] at hc; cases hc
      · simp only [hcc] at hc
        by_cases hce : c2 = ""
        · rw [if_pos hce] at hc; cases hc
        · rw [if_neg hce] at hc
          cases hc
          exact hce
    · rw [if_neg hok] at hc; cases hc
  have ho : ∀ c, callOpenRouterV2 env.ok env.body = .ok c → c ≠ "" ∧ trimL c.data ≠ [] := by
    intro c hc
    unfold callOpenRouterV2 at hc
    by_cases hp : env.body.parses = true
    · rw [if_pos hp] at hc
      by_cases hok : env.ok = true
      · rw [if_pos hok] at hc
        by_cases herr : env.body.hasErrorField = true
        · rw [if_pos herr] at hc; cases hc
        · rw [if_neg herr] at hc
          rcases hcc : env.body.content with _ | c2
          · simp only [hcc] at hc; cases hc
          · simp only [hcc] at hc
            by_cases hce : (c2 = "" ∨ trimL c2.data = [])
            · rw [if_pos hce] at hc; cases hc
            · rw [if_neg hce] at hc
              cases hc
              push_neg at hce
              exact hce
      · rw [if_neg hok] at hc; cases hc
    · rw [if_neg hp] at hc; cases hc
  refine ⟨?_, ?_, hm, ho⟩
  · intro herr
    unfold callAgentV2 at herr ⊢
    by_cases hk : env.apiKey = ""
    · rw [if_pos hk] at herr; cases herr
    · rw [if_neg hk] at herr ⊢
      by_cases hprov : env.provider = "mistral"
      · rw [if_pos hprov] at herr ⊢
        rcases hres : callMistralV2 env.ok env.body with m | c
        · rw [hres] at herr; simp at herr
        · simpa using hm c hres
      · rw [if_neg hprov] at herr ⊢
        rcases hres : callOpenRouterV2 env.ok env.body with m | c
        · rw [hres] at herr; simp at herr
        · simpa using (ho c hres).1
  · intro hprov herr
    unfold callAgentV2 at herr ⊢
    by_cases hk : env.apiKey = ""
    · rw [if_pos hk] at herr; cases herr
    · rw [if_neg hk] at herr ⊢
      rw [if_neg hprov] at herr ⊢
      rcases hres : callOpenRouterV2 env.ok env.body with m | c
      · rw [hres] at herr; simp at herr
      · simpa using (ho c hres).2

def wOkEnv : AgentEnvV2 :=
  { provider := "openrouter", apiKey := "sk-or", ok := true,
    body := { parses := true, message := none, errMessage := none,
              hasErrorField := false, content := some "Texto del recurso administrativo" } }

theorem c9_empty_response_amended_witness :
    (callAgentV2 wOkEnv).content ≠ "" ∧
    trimL (callAgentV2 wOkEnv).content.data ≠ [] := by
  have h := c9_empty_response_amended wOkEnv
  exact ⟨h.1 (by decide), h.2.1 (by decide) (by decide)⟩

end RecurreMultas

namespace RecurreMultas

/-! ## Claim C10: consolidation of submission-URL proposals
(`consolidateUrls`, app/api/analyze/route.ts revision with FASE 3) -/

structure UrlProposal where
  url : String
  nombre : String
  confianza : String
deriving DecidableEq

/-- `p.url && p.url.startsWith("http")`. -/
def urlValid (p : UrlProposal) : Bool :=
  p.url ≠ "" ∧ p.url.data.take 4 = "http".data

def validProposals (proposals : List UrlProposal) : List UrlProposal :=
  proposals.filter urlValid

def isAltaPair (q : String × UrlProposal) : Bool := q.2.confianza = "alta"

/-- `votes[domain].count++; if (p.confianza === "alta") votes[domain].proposal = p`:
each later proposal of the domain replaces the stored one exactly when it has
high confidence. -/
def altaUpd (st new : String × UrlProposal) : String × UrlProposal :=
  if isAltaPair new then new else st

/-- The `(hostname, proposal)` pairs of the valid proposals whose URL the
platform `new URL` parser (passed as the oracle `parseHost`) accepts;
unparseable URLs are silently skipped (`catch { /* URL inválida */ }`). -/
def parseablePairs (parseHost : String → Option String)
    (proposals : List UrlProposal) : List (String × UrlProposal) :=
  (validProposals proposals).filterMap
    (fun p => (parseHost p.url).map (fun h => (h, p)))

/-- `consolidateUrls`: `null` without valid proposals; otherwise the stored
proposal of the most-voted domain (stable sort, index 0), or `null` when no
valid proposal parsed. -/
def consolidateUrls (parseHost : String → Option String)
    (proposals : List UrlProposal) : Option UrlProposal :=
  if validProposals proposals = [] then none
  else
    match sortDesc (fun e => e.count)
        (tally Prod.fst altaUpd (parseablePairs parseHost proposals)) with
    | [] => none
    | e :: _ => some e.payload.2

def domCount (parseHost : String → Option String)
    (proposals : List UrlProposal) (h : String) : Nat :=
  (parseablePairs parseHost proposals).countP (fun q => q.1 = h)

theorem foldl_choice_mem (f : α → α → α) (hf : ∀ a b, f a b = a ∨ f a b = b)
    (y : α) (l : List α) : l.foldl f y = y ∨ l.foldl f y ∈ l := by
  induction l generalizing y with
  | nil => exact Or.inl rfl
  | cons z zs ih =>
    simp only [List.foldl_cons]
    rcases ih (f y z) with h | h
    · rcases hf y z with h2 | h2
      · rw [h, h2]; exact Or.inl rfl
      · rw [h, h2]; exact Or.inr (List.mem_cons_self z zs)
    · exact Or.inr (List.mem_cons.mpr (Or.inr h))

theorem foldl_alta_none (isA : α → Bool) (y : α) (l : List α)
    (h : ∀ z ∈ l, isA z = false) :
    l.foldl (fun st new => if isA new then new else st) y = y := by
  induction l generalizing y with
  | nil => rfl
  | cons z zs ih =>
    simp only [List.foldl_cons]
    rw [if_neg (by simp [h z (List.mem_cons_self z zs)])]
    exact ih y (fun w hw => h w (List.mem_cons.mpr (Or.inr hw)))

theorem foldl_alta_some (isA : α → Bool) (y : α) (l : List α)
    (h : isA y = true ∨ ∃ z ∈ l, isA z = true) :
    isA (l.foldl (fun st new => if isA new then new else st) y) = true := by
  induction l generalizing y with
  | nil =>
    rcases h with h | ⟨z, hz, _⟩
    · exact h
    · cases hz
  | cons z zs ih =>
    simp only [List.foldl_cons]
    by_cases hz : isA z = true
    · rw [if_pos hz]
      exact ih z (Or.inl hz)
    · rw [if_neg hz]
      apply ih y
      rcases h with h | ⟨w, hw, hwa⟩
      · exact Or.inl h
      · rcases List.mem_cons.mp hw with hwz | hwzs
        · exact absurd (hwz ▸ hwa) hz
        · exact Or.inr ⟨w, hwzs, hwa⟩

/-- Claim C10: `consolidateUrls` never throws (it is a total function of the
proposals and the URL-parser oracle); it returns `none` exactly when no
proposal has a non-empty `http`-prefixed URL accepted by the URL parser;
otherwise it returns one of the proposals, belonging to a hostname of maximal
vote count, and within that winning domain the stored proposal is
high-confidence whenever the domain received any `alta` proposal, and is the
domain's first-seen proposal otherwise.  Unparseable URLs are skipped. -/
theorem c10_consolidate_urls (parseHost : String → Option String)
    (proposals : List UrlProposal) :
    (consolidateUrls parseHost proposals = none ↔
      ∀ p ∈ proposals, urlValid p = true → parseHost p.url = none) ∧
    (∀ r, consolidateUrls parseHost proposals = some r →
      ∃ hr, parseHost r.url = some hr ∧ r ∈ proposals ∧ urlValid r = true ∧
        (∀ h2, domCount parseHost proposals h2 ≤ domCount parseHost proposals hr) ∧
        (hr, r) ∈ (parseablePairs parseHost proposals).filter (fun q => q.1 = hr) ∧
        (((parseablePairs parseHost proposals).filter (fun q => q.1 = hr)).any
            isAltaPair = true → r.confianza = "alta") ∧
        ((∀ q ∈ (parseablePairs parseHost proposals).filter (fun q => q.1 = hr),
            isAltaPair q = false) →
          ((parseablePairs parseHost proposals).filter
            (fun q => q.1 = hr)).head? = some (hr, r))) := by
  have hspec := tally_spec Prod.fst altaUpd (parseablePairs parseHost proposals)
  obtain ⟨hkeys, hcount, hpayload⟩ := hspec
  have hPnil : parseablePairs parseHost proposals = [] ↔
      ∀ p ∈ proposals, urlValid p = true → parseHost p.url = none := by
    unfold parseablePairs
    rw [List.filterMap_eq_nil_iff]
    constructor
    · intro h p hp hv
      have hpv : p ∈ validProposals proposals :=
        List.mem_filter.mpr ⟨hp, hv⟩
      have := h p hpv
      exact Option.map_eq_none.mp this
    · intro h p hp
      have h1 := (List.mem_filter.mp hp).1
      have h2 := (List.mem_filter.mp hp).2
      rw [h p h1 h2]
      rfl
  have hTnilP : tally Prod.fst altaUpd (parseablePairs parseHost proposals) = [] →
      parseablePairs parseHost proposals = [] := by
    intro hT
    rcases hP : parseablePairs parseHost proposals with _ | ⟨q, qs⟩
    · rfl
    · exfalso
      have : q.1 ∈ dedupIns ((parseablePairs parseHost proposals).map Prod.fst) := by
        rw [mem_dedupIns, hP]
        exact List.mem_map.mpr ⟨q, List.mem_cons_self q qs, rfl⟩
      rw [← hkeys, hT] at this
      simp at this
  constructor
  · -- the none characterization
    constructor
    · intro hnone
      unfold consolidateUrls at hnone
      by_cases hv : validProposals proposals = []
      · intro p hp hval
        have : p ∉ validProposals proposals := by rw [hv]; simp
        exact absurd (List.mem_filter.mpr ⟨hp, hval⟩) this
      · rw [if_neg hv] at hnone
        rcases hS : sortDesc (fun e => e.count)
            (tally Prod.fst altaUpd (parseablePairs parseHost proposals)) with _ | ⟨e, tl⟩
        · have hlen := (sortDesc_perm (fun e : TEntry String (String × UrlProposal) => e.count)
            (tally Prod.fst altaUpd (parseablePairs parseHost proposals))).length_eq
          rw [hS] at hlen
          have hT := List.length_eq_zero.mp hlen.symm
          exact hPnil.mp (hTnilP hT)
        · rw [hS] at hnone
          cases hnone
    · intro h
      have hP : parseablePairs parseHost proposals = [] := hPnil.mpr h
      unfold consolidateUrls
      by_cases hv : validProposals proposals = []
      · rw [if_pos hv]
      · rw [if_neg hv, hP]
        rfl
  · -- the some characterization
    intro r hr
    unfold consolidateUrls at hr
    by_cases hv : validProposals proposals = []
    · rw [if_pos hv] at hr; cases hr
    · rw [if_neg hv] at hr
      rcases hS : sortDesc (fun e => e.count)
          (tally Prod.fst altaUpd (parseablePairs parseHost proposals)) with _ | ⟨e, tl⟩
      · rw [hS] at hr; cases hr
      · rw [hS] at hr
        have hre : r = e.payload.2 := by
          have : some e.payload.2 = some r := hr
          exact (Option.some.injEq _ _ ▸ this).symm
        have hemem : e ∈ tally Prod.fst altaUpd (parseablePairs parseHost proposals) := by
          have : e ∈ sortDesc (fun e => e.count)
              (tally Prod.fst altaUpd (parseablePairs parseHost proposals)) := by
            rw [hS]; exact List.mem_cons_self e tl
          exact (sortDesc_perm _ _).mem_iff.mp this
        have hpay := hpayload e hemem
        rcases hgrp : (parseablePairs parseHost proposals).filter
            (fun q => q.1 = e.key) with _ | ⟨y, grest⟩
        · rw [hgrp] at hpay
          cases hpay
        · rw [hgrp] at hpay
          simp only [groupFold, Option.some.injEq] at hpay
          -- e.payload is the alta-fold of the group
          have hfold : e.payload = grest.foldl altaUpd y := hpay
          have hmem : e.payload ∈ y :: grest := by
            rcases foldl_choice_mem altaUpd (fun a b => by
              unfold altaUpd
              by_cases h : isAltaPair b = true
              · rw [if_pos h]; exact Or.inr rfl
              · rw [if_neg h]; exact Or.inl rfl) y grest with h | h
            · rw [hfold, h]; exact List.mem_cons_self y grest
            · rw [hfold]; exact List.mem_cons.mpr (Or.inr h)
          have hmemgrp : e.payload ∈ (parseablePairs parseHost proposals).filter
              (fun q => q.1 = e.key) := by rw [hgrp]; exact hmem
          have hkey2 : e.payload.1 = e.key := by
            have := (List.mem_filter.mp hmemgrp).2
            simpa using this
          have hmemP : e.payload ∈ parseablePairs parseHost proposals :=
            (List.mem_filter.mp hmemgrp).1
          have hprops : e.payload.2 ∈ validProposals proposals ∧
              parseHost e.payload.2.url = some e.payload.1 := by
            unfold parseablePairs at hmemP
            rcases List.mem_filterMap.mp hmemP with ⟨p, hp, hpp⟩
            rcases hph : parseHost p.url with _ | h0
            · rw [hph] at hpp; cases hpp
            · rw [hph] at hpp
              have hpp2 : some (h0, p) = some e.payload := hpp
              have hpp3 : (h0, p) = e.payload := Option.some.inj hpp2
              have hp2 : e.payload.2 = p := by rw [← hpp3]
              have hp1 : e.payload.1 = h0 := by rw [← hpp3]
              rw [hp2, hp1, hph]
              exact ⟨hp, rfl⟩
          have hpair : e.payload = (e.key, r) := by
            rw [hre]
            exact Prod.ext hkey2 rfl
          refine ⟨e.key, ?_, ?_, ?_, ?_, ?_, ?_, ?_⟩
          · rw [hre, ← hkey2]
            exact hprops.2
          · rw [hre]
            exact (List.mem_filter.mp hprops.1).1
          · rw [hre]
            exact (List.mem_filter.mp hprops.1).2
          · -- maximal vote count
            intro h2
            have hedom : e.count = domCount parseHost proposals e.key := by
              have := hcount e hemem
              simpa [domCount] using this
            by_cases hmem2 : h2 ∈ (tally Prod.fst altaUpd
                (parseablePairs parseHost proposals)).map (fun t => t.key)
            · rcases List.mem_map.mp hmem2 with ⟨e2, he2, he2k⟩
              have he2c : e2.count = domCount parseHost proposals h2 := by
                have := hcount e2 he2
                simpa [domCount, he2k] using this
              rw [← he2c, ← hedom]
              exact sortDesc_head_max _ _ _ _ hS e2 he2
            · have h0 : domCount parseHost proposals h2 = 0 := by
                unfold domCount
                rw [List.countP_eq_zero]
                intro q hq hcon
                apply hmem2
                rw [hkeys, mem_dedupIns]
                have : q.1 = h2 := of_decide_eq_true hcon
                exact this ▸ List.mem_map.mpr ⟨q, hq, rfl⟩
              rw [h0]
              exact Nat.zero_le _
          · rw [← hpair]
            exact hmemgrp
          · -- any alta in the domain: the result is alta
            intro hany
            rw [hgrp] at hany
            have : isAltaPair e.payload = true := by
              rw [hfold]
              apply foldl_alta_some
              rcases List.any_eq_true.mp hany with ⟨q, hq, hqa⟩
              rcases List.mem_cons.mp hq with hqy | hqgrest
              · exact Or.inl (hqy ▸ hqa)
              · exact Or.inr ⟨q, hqgrest, hqa⟩
            rw [hre]
            exact of_decide_eq_true this
          · -- no alta: the first-seen proposal of the domain is kept
            intro hnone2
            rw [hgrp]
            have : e.payload = y := by
              rw [hfold]
              apply foldl_alta_none
              intro z hz
              exact hnone2 z (by rw [hgrp]; exact List.mem_cons.mpr (Or.inr hz))
            rw [← this, hpair]
            rfl

end RecurreMultas

namespace RecurreMultas

def wParseHost : String → Option String := fun u =>
  if u = "https://sede.dgt.gob.es" then some "sede.dgt.gob.es"
  else if u = "https://sede.madrid.es" then some "sede.madrid.es"
  else none

def wWinner : UrlProposal := ⟨"https://sede.dgt.gob.es", "Sede DGT", "alta"⟩

def wProposals : List UrlProposal :=
  [⟨"https://sede.dgt.gob.es", "Sede DGT", "media"⟩, wWinner,
   ⟨"https://sede.madrid.es", "Sede Electrónica Madrid", "alta"⟩]

theorem c10_consolidate_urls_witness :
    ∃ hr, wParseHost wWinner.url = some hr ∧ wWinner ∈ wProposals ∧
      urlValid wWinner = true ∧
      (∀ h2, domCount wParseHost wProposals h2 ≤ domCount wParseHost wProposals hr) ∧
      (hr, wWinner) ∈ (parseablePairs wParseHost wProposals).filter (fun q => q.1 = hr) ∧
      (((parseablePairs wParseHost wProposals).filter (fun q => q.1 = hr)).any
          isAltaPair = true → wWinner.confianza = "alta") ∧
      ((∀ q ∈ (parseablePairs wParseHost wProposals).filter (fun q => q.1 = hr),
          isAltaPair q = false) →
        ((parseablePairs wParseHost wProposals).filter
          (fun q => q.1 = hr)).head? = some (hr, wWinner)) :=
  (c10_consolidate_urls wParseHost wProposals).2 wWinner (by decide)

end RecurreMultas

namespace RecurreMultas

/-! ## Claim C8: deadline computation (`calcularPlazo`,
app/api/analyze/route.ts, FASE 3 revision)

JS `Date` month/day arithmetic is modelled on the proleptic Gregorian
calendar via day numbers (days since 1970-01-01), using the standard
civil-from-days / days-from-civil algorithms.  `new Date(y, m, d)` normalizes
month overflow into the year and day overflow into the following months,
which the model reproduces.  `toISOString` (UTC) of a midnight-normalized
date is represented by the civil `(year, month, day)` triple, and the
locale-formatted display string by the same triple. -/

def daysFromCivil (y m d : Int) : Int :=
  let y2 := if m ≤ 2 then y - 1 else y
  let era := y2.fdiv 400
  let yoe := y2 - era * 400
  let mp := (m + 9).emod 12
  let doy := (153 * mp + 2).fdiv 5 + d - 1
  let doe := yoe * 365 + yoe.fdiv 4 - yoe.fdiv 100 + doy
  era * 146097 + doe - 719468

def civilFromDays (z0 : Int) : Int × Int × Int :=
  let z := z0 + 719468
  let era := z.fdiv 146097
  let doe := z - era * 146097
  let yoe := (doe - doe.fdiv 1460 + doe.fdiv 36524 - doe.fdiv 146096).fdiv 365
  let y := yoe + era * 400
  let doy := doe - (365 * yoe + yoe.fdiv 4 - yoe.fdiv 100)
  let mp := (5 * doy + 2).fdiv 153
  let d := doy - (153 * mp + 2).fdiv 5 + 1
  let m := if mp < 10 then mp + 3 else mp - 9
  (if m ≤ 2 then y + 1 else y, m, d)

/-- `new Date(y, m0, d)` with a 0-based month index: normalize the month into
the year, then let day overflow run into the following months. -/
def jsDateDay (y m0 d : Int) : Int :=
  daysFromCivil (y + m0.fdiv 12) (m0.emod 12 + 1) 1 + (d - 1)

/-- `fechaLimite.setMonth(fechaLimite.getMonth() + 1)` on a normalized
date. -/
def addOneMonthJS (day : Int) : Int :=
  match civilFromDays day with
  | (y, m, d) => jsDateDay y ((m - 1) + 1) d

def isDigit (c : Char) : Bool := '0' ≤ c ∧ c ≤ '9'
def digitVal (c : Char) : Nat := c.toNat - 48
def isSep (c : Char) : Bool := c = '/' ∨ c = '-'

/-- The alternatives of a greedy `\d{1,2}`: two digits first, then one. -/
def take2or1 (l : List Char) : List (Nat × List Char) :=
  match l with
  | c1 :: c2 :: rest =>
    if isDigit c1 ∧ isDigit c2 then
      [(digitVal c1 * 10 + digitVal c2, rest), (digitVal c1, c2 :: rest)]
    else if isDigit c1 then [(digitVal c1, c2 :: rest)]
    else []
  | [c1] => if isDigit c1 then [(digitVal c1, [])] else []
  | [] => []

def sepThen (l : List Char) : Option (List Char) :=
  match l with
  | c :: rest => if isSep c then some rest else none
  | [] => none

def fourDigits (l : List Char) : Option Nat :=
  match l with
  | a :: b :: c :: d :: _ =>
    if isDigit a ∧ isDigit b ∧ isDigit c ∧ isDigit d then
      some (((digitVal a * 10 + digitVal b) * 10 + digitVal c) * 10 + digitVal d)
    else none
  | _ => none

/-- One-or-two digits, a slash-or-dash separator, one-or-two digits, the same
separator class, four digits — anchored at the head, with the regex's
greedy-then-backtrack behaviour on the one-or-two digit groups. -/
def m1Here (l : List Char) : Option (Nat × Nat × Nat) :=
  (take2or1 l).findSome? (fun dp =>
    match sepThen dp.2 with
    | none => none
    | some r2 =>
      (take2or1 r2).findSome? (fun mp =>
        match sepThen mp.2 with
        | none => none
        | some r4 => (fourDigits r4).map (fun y => (dp.1, mp.1, y))))

def m1Scan : List Char → Option (Nat × Nat × Nat)
  | [] => none
  | c :: cs =>
    match m1Here (c :: cs) with
    | some r => some r
    | none => m1Scan cs

def isWordChar (c : Char) : Bool :=
  ('a' ≤ c ∧ c ≤ 'z') ∨ ('A' ≤ c ∧ c ≤ 'Z') ∨ isDigit c ∨ c = '_'

/-- `\s+`: at least one whitespace character, then the maximal run. -/
def wsRun1 (l : List Char) : Option (List Char) :=
  match l with
  | c :: rest => if jsWs c then some (rest.dropWhile jsWs) else none
  | [] => none

/-- Case-insensitive literal `de`. -/
def deLit (l : List Char) : Option (List Char) :=
  match l with
  | c1 :: c2 :: rest => if jsLower c1 = 'd' ∧ jsLower c2 = 'e' then some rest else none
  | _ => none

/-- `(\w+)`: the maximal non-empty run of ASCII word characters. -/
def wordRun (l : List Char) : Option (List Char × List Char) :=
  match l.takeWhile isWordChar with
  | [] => none
  | w => some (w, l.drop w.length)

/-- `(\d{1,2})\s+de\s+(\w+)\s+de\s+(\d{4})` anchored at the head
(case-insensitive). -/
def m2Here (l : List Char) : Option (Nat × List Char × Nat) :=
  (take2or1 l).findSome? (fun dp =>
    match wsRun1 dp.2 with
    | none => none
    | some r2 =>
      match deLit r2 with
      | none => none
      | some r3 =>
        match wsRun1 r3 with
        | none => none
        | some r4 =>
          match wordRun r4 with
          | none => none
          | some (w, r5) =>
            match wsRun1 r5 with
            | none => none
            | some r6 =>
              match deLit r6 with
              | none => none
              | some r7 =>
                match wsRun1 r7 with
                | none => none
                | some r8 => (fourDigits r8).map (fun y => (dp.1, w, y)))

def m2Scan : List Char → Option (Nat × List Char × Nat)
  | [] => none
  | c :: cs =>
    match m2Here (c :: cs) with
    | some r => some r
    | none => m2Scan cs

/-- The `meses` month-name table (`m2[2].toLowerCase()` lookup). -/
def monthIdx (w : List Char) : Option Nat :=
  let lw := w.map jsLower
  if lw = "enero".data then some 0
  else if lw = "febrero".data then some 1
  else if lw = "marzo".data then some 2
  else if lw = "abril".data then some 3
  else if lw = "mayo".data then some 4
  else if lw = "junio".data then some 5
  else if lw = "julio".data then some 6
  else if lw = "agosto".data then some 7
  else if lw = "septiembre".data then some 8
  else if lw = "octubre".data then some 9
  else if lw = "noviembre".data then some 10
  else if lw = "diciembre".data then some 11
  else none

/-- `(\d{4})-(\d{2})-(\d{2})` anchored at the head. -/
def m3Here : List Char → Option (Nat × Nat × Nat)
  | a :: b :: c :: d :: s1 :: e :: f :: s2 :: g :: h :: _ =>
    if isDigit a ∧ isDigit b ∧ isDigit c ∧ isDigit d ∧ s1 = '-' ∧
       isDigit e ∧ isDigit f ∧ s2 = '-' ∧ isDigit g ∧ isDigit h then
      some ((((digitVal a * 10 + digitVal b) * 10 + digitVal c) * 10 + digitVal d),
        (digitVal e * 10 + digitVal f), (digitVal g * 10 + digitVal h))
    else none
  | _ => none

def m3Scan : List Char → Option (Nat × Nat × Nat)
  | [] => none
  | c :: cs =>
    match m3Here (c :: cs) with
    | some r => some r
    | none => m3Scan cs

def m3Result (raw : List Char) : Option Int :=
  (m3Scan raw).map (fun t => jsDateDay (t.1 : Int) ((t.2.1 : Int) - 1) (t.2.2 : Int))

/-- The date-parsing chain of `calcularPlazo`: `DD/MM/YYYY` or `DD-MM-YYYY`;
else the long Spanish form (falling through to the next pattern when the
month name is unknown); else ISO `YYYY-MM-DD`. -/
def parseFechaDay (raw : List Char) : Option Int :=
  match m1Scan raw with
  | some t => some (jsDateDay (t.2.2 : Int) ((t.2.1 : Int) - 1) (t.1 : Int))
  | none =>
    match m2Scan raw with
    | some t =>
      match monthIdx t.2.1 with
      | some mi => some (jsDateDay (t.2.2 : Int) (mi : Int) (t.1 : Int))
      | none => m3Result raw
    | none => m3Result raw

def startsWithL : List Char → List Char → Bool
  | _, [] => true
  | [], _ :: _ => false
  | c :: cs, p :: ps => c = p ∧ startsWithL cs ps

def containsSub : List Char → List Char → Bool
  | [], pat => pat = []
  | c :: cs, pat => startsWithL (c :: cs) pat ∨ containsSub cs pat

/-- Search for `pat` with no newline in the gap (`.*` does not cross lines). -/
def sameLineSearch : List Char → List Char → Bool
  | [], pat => startsWithL [] pat
  | c :: cs, pat => startsWithL (c :: cs) pat ∨ (c ≠ '\n' ∧ sameLineSearch cs pat)

/-- `inicio.*procedimiento` over the lower-cased text. -/
def inicioProc : List Char → Bool
  | [] => false
  | c :: cs =>
    (startsWithL (c :: cs) "inicio".data ∧
      sameLineSearch ((c :: cs).drop 6) "procedimiento".data) ∨ inicioProc cs

/-- `/alegaciones|inicio.*procedimiento|procedimiento sancionador|20 d[ií]as
naturales/i.test(parsedText)`. -/
def esAlegacionesTest (text : List Char) : Bool :=
  let lt := text.map jsLower
  containsSub lt "alegaciones".data ∨ inicioProc lt ∨
  containsSub lt "procedimiento sancionador".data ∨
  containsSub lt "20 días naturales".data ∨ containsSub lt "20 dias naturales".data

/-- The case-insensitive label `FECHA DE NOTIFICACI[OÓ]N:` anchored at the
head; returns the remainder after the colon. -/
def notifLabel (l : List Char) : Option (List Char) :=
  if startsLower l "fecha de notificaci".data then
    match l.drop 19 with
    | c1 :: c2 :: c3 :: rest =>
      if (c1 = 'o' ∨ c1 = 'O' ∨ c1 = 'ó' ∨ c1 = 'Ó') ∧ jsLower c2 = 'n' ∧ c3 = ':'
      then some rest else none
    | _ => none
  else none

def findNotifAux : List Char → Option (List Char)
  | [] => none
  | c :: cs =>
    match notifLabel (c :: cs) with
    | some rest => some rest
    | none => findNotifAux cs

structure PlazoInfo where
  fechaNotificacion : String
  notifCivil : Int × Int × Int
  limiteCivil : Int × Int × Int
  diasRestantes : Int
  tipoRecurso : String
  baseLegal : String
  urgencia : String
deriving DecidableEq

/-- The urgency tiering of `calcularPlazo` (the spec's English tier names map
as ok↦"ok", warning↦"aviso", urgent↦"urgente", expired↦"vencido"). -/
def urgenciaOf (dias : Int) : String :=
  if dias < 0 then "vencido"
  else if dias ≤ 3 then "urgente"
  else if dias ≤ 7 then "aviso"
  else "ok"

/-- `calcularPlazo(parsedText)` with "today" (midnight-normalized) passed as
the day number `hoy`: locate the notification-date value, parse it, classify
the procedure by the allegation-keyword regex, add 20 days or one calendar
month, and derive the signed whole-day difference and its urgency tier. -/
def calcularPlazo (parsedText : String) (hoy : Int) : Option PlazoInfo :=
  match findNotifAux parsedText.data with
  | none => none
  | some rest =>
    let value := (rest.dropWhile jsWs).takeWhile (fun c => c ≠ '\n')
    let rawFecha := trimL value
    if rawFecha = "No indicado".data ∨ rawFecha = [] then none
    else
      match parseFechaDay rawFecha with
      | none => none
      | some base =>
        let esA := esAlegacionesTest parsedText.data
        let lim := if esA then base + 20 else addOneMonthJS base
        let dias := lim - hoy
        some { fechaNotificacion := String.mk rawFecha,
               notifCivil := civilFromDays base,
               limiteCivil := civilFromDays lim,
               diasRestantes := dias,
               tipoRecurso := if esA then "Alegaciones al procedimiento sancionador"
                 else "Recurso de reposición",
               baseLegal := if esA then "Art. 89.1 TRLTSV (RDLeg. 6/2015) — 20 días naturales"
                 else "Art. 123.1 Ley 39/2015 (LPACAP) — 1 mes natural",
               urgencia := urgenciaOf dias }

/- Sanity checks of the calendar model against known dates, including the JS
day/month-overflow normalization. -/
example : daysFromCivil 1970 1 1 = 0 := by decide
example : daysFromCivil 2025 1 10 = 20098 := by decide
example : civilFromDays 20098 = (2025, 1, 10) := by decide
example : addOneMonthJS (daysFromCivil 2025 1 10) = daysFromCivil 2025 2 10 := by decide
example : addOneMonthJS (daysFromCivil 2025 1 31) = daysFromCivil 2025 3 3 := by decide
example : addOneMonthJS (daysFromCivil 2024 12 31) = daysFromCivil 2025 1 31 := by decide

end RecurreMultas

namespace RecurreMultas

/-- Claim C8: for every extracted text whose notification date parses,
`calcularPlazo` takes the due day as the notice day plus one calendar month
(JS `setMonth` normalization) when no allegation-stage keyword matches, and
the notice day plus 20 calendar days when one does, with the matching legal
basis and recourse type; `diasRestantes` is the signed whole-day difference
between the due day and today (both already midnight-normalized day
numbers); `urgencia` is the pure tier function of `diasRestantes` with tiers
`<0` vencido (expired), `0..3` urgente (urgent), `4..7` aviso (warning),
`>7` ok.  In particular (property P6) notice date `10/01/2025` in
reposition-stage text yields due date 2025-02-10 and, evaluated on
2025-02-05, `diasRestantes = 5` and urgency "aviso" (the spec's "warning");
an allegation-stage instance notified `15 de enero de 2025` is due
2025-02-04 and, evaluated on 2025-02-23, is 19 days expired. -/
theorem c8_deadline_computation :
    (∀ (text : String) (hoy : Int) (info : PlazoInfo),
      calcularPlazo text hoy = some info →
      ∃ base : Int,
        info.notifCivil = civilFromDays base ∧
        (esAlegacionesTest text.data = true →
          info.limiteCivil = civilFromDays (base + 20) ∧
          info.diasRestantes = base + 20 - hoy ∧
          info.tipoRecurso = "Alegaciones al procedimiento sancionador" ∧
          info.baseLegal = "Art. 89.1 TRLTSV (RDLeg. 6/2015) — 20 días naturales") ∧
        (esAlegacionesTest text.data = false →
          info.limiteCivil = civilFromDays (addOneMonthJS base) ∧
          info.diasRestantes = addOneMonthJS base - hoy ∧
          info.tipoRecurso = "Recurso de reposición" ∧
          info.baseLegal = "Art. 123.1 Ley 39/2015 (LPACAP) — 1 mes natural") ∧
        info.urgencia = urgenciaOf info.diasRestantes) ∧
    (∀ d : Int, (urgenciaOf d = "vencido" ↔ d < 0) ∧
      (urgenciaOf d = "urgente" ↔ 0 ≤ d ∧ d ≤ 3) ∧
      (urgenciaOf d = "aviso" ↔ 4 ≤ d ∧ d ≤ 7) ∧
      (urgenciaOf d = "ok" ↔ 7 < d)) ∧
    calcularPlazo "FECHA DE NOTIFICACIÓN: 10/01/2025" (daysFromCivil 2025 2 5) =
      some { fechaNotificacion := "10/01/2025", notifCivil := (2025, 1, 10),
             limiteCivil := (2025, 2, 10), diasRestantes := 5,
             tipoRecurso := "Recurso de reposición",
             baseLegal := "Art. 123.1 Ley 39/2015 (LPACAP) — 1 mes natural",
             urgencia := "aviso" } ∧
    calcularPlazo "Se notificó el inicio del procedimiento sancionador.\nFECHA DE NOTIFICACIÓN: 15 de enero de 2025" (daysFromCivil 2025 2 23) =
      some { fechaNotificacion := "15 de enero de 2025", notifCivil := (2025, 1, 15),
             limiteCivil := (2025, 2, 4), diasRestantes := -19,
             tipoRecurso := "Alegaciones al procedimiento sancionador",
             baseLegal := "Art. 89.1 TRLTSV (RDLeg. 6/2015) — 20 días naturales",
             urgencia := "vencido" } := by
  refine ⟨?_, ?_, by decide, by decide⟩
  · intro text hoy info h
    unfold calcularPlazo at h
    split at h
    · cases h
    next rest hf =>
      simp only [] at h
      split at h
      · cases h
      next hni =>
        split at h
        · cases h
        next base hparse =>
          refine ⟨base, ?_⟩
          rcases hA : esAlegacionesTest text.data with _ | _ <;>
            simp only [hA, Option.some.injEq] at h <;>
            subst h <;>
            simp [urgenciaOf]
  · intro d
    refine ⟨?_, ?_, ?_, ?_⟩ <;> unfold urgenciaOf <;> split_ifs <;>
      simp_all <;> omega

/-- Witness for C8: the P6 input evaluated concretely satisfies the general
characterization. -/
theorem c8_deadline_computation_witness :
    ∃ base : Int,
      ({ fechaNotificacion := "10/01/2025", notifCivil := (2025, 1, 10),
         limiteCivil := (2025, 2, 10), diasRestantes := 5,
         tipoRecurso := "Recurso de reposición",
         baseLegal := "Art. 123.1 Ley 39/2015 (LPACAP) — 1 mes natural",
         urgencia := "aviso" } : PlazoInfo).notifCivil = civilFromDays base ∧
      (esAlegacionesTest ("FECHA DE NOTIFICACIÓN: 10/01/2025" : String).data = true →
        ({ fechaNotificacion := "10/01/2025", notifCivil := (2025, 1, 10),
           limiteCivil := (2025, 2, 10), diasRestantes := 5,
           tipoRecurso := "Recurso de reposición",
           baseLegal := "Art. 123.1 Ley 39/2015 (LPACAP) — 1 mes natural",
           urgencia := "aviso" } : PlazoInfo).limiteCivil = civilFromDays (base + 20) ∧
        (5 : Int) = base + 20 - daysFromCivil 2025 2 5 ∧
        ("Recurso de reposición" : String) = "Alegaciones al procedimiento sancionador" ∧
        ("Art. 123.1 Ley 39/2015 (LPACAP) — 1 mes natural" : String) =
          "Art. 89.1 TRLTSV (RDLeg. 6/2015) — 20 días naturales") ∧
      (esAlegacionesTest ("FECHA DE NOTIFICACIÓN: 10/01/2025" : String).data = false →
        ({ fechaNotificacion := "10/01/2025", notifCivil := (2025, 1, 10),
           limiteCivil := (2025, 2, 10), diasRestantes := 5,
           tipoRecurso := "Recurso de reposición",
           baseLegal := "Art. 123.1 Ley 39/2015 (LPACAP) — 1 mes natural",
           urgencia := "aviso" } : PlazoInfo).limiteCivil =
            civilFromDays (addOneMonthJS base) ∧
        (5 : Int) = addOneMonthJS base - daysFromCivil 2025 2 5 ∧
        ("Recurso de reposición" : String) = "Recurso de reposición" ∧
        ("Art. 123.1 Ley 39/2015 (LPACAP) — 1 mes natural" : String) =
          "Art. 123.1 Ley 39/2015 (LPACAP) — 1 mes natural") ∧
      ("aviso" : String) = urgenciaOf 5 :=
  c8_deadline_computation.1 "FECHA DE NOTIFICACIÓN: 10/01/2025"
    (daysFromCivil 2025 2 5)
    { fechaNotificacion := "10/01/2025", notifCivil := (2025, 1, 10),
      limiteCivil := (2025, 2, 10), diasRestantes := 5,
      tipoRecurso := "Recurso de reposición",
      baseLegal := "Art. 123.1 Ley 39/2015 (LPACAP) — 1 mes natural",
      urgencia := "aviso" } (by decide)

end RecurreMultas
